import Mathlib

/-!
# Formal model of `convert.py` (Ocean-From-Motion)

A shallow embedding of the document-conversion pipeline of `src/convert.py`:
the OMML-to-LaTeX math translator (`_latex_escape_text`, `_join_latex_parts`,
`omml_to_latex`), the heading classifiers (`is_section_heading`,
`classify_heading_level`), the structural segmenter (`split_into_sections`)
and the section renderer (`para_has_content`, `section_to_html`).

Python strings are modelled as Lean `String`s; the Python string methods the
source uses (`strip`, `startswith`, `in`, `split`, slicing) are re-implemented
below over `List Char` so that every definition evaluates by kernel reduction.
XML elements (lxml nodes) are modelled by the `Xml` tree: a tag (with its
`{namespace}` prefix, as lxml renders it), an optional `val` attribute (the
only attribute the source ever reads), optional element text, and the child
list.  `python-docx` objects are modelled at the interface the source uses:
a paragraph is its style name plus its XML children; runs, paragraph text,
and tri-state bold/italic are derived the way `python-docx` derives them.
-/

namespace OceanFromMotion

/-! ## Python string primitives -/

/-- Python whitespace for `\s` and `str.strip`/`str.isspace` (the ASCII part,
which covers every character this document's headings use). -/
def isPySpace (c : Char) : Bool :=
  c == ' ' || c == '\t' || c == '\n' || c == '\r' || c == '\x0b' || c == '\x0c'

/-- Python `str.isalpha` restricted to the character ranges occurring in this
pipeline: ASCII letters and the Greek and Coptic block.  (Python's `isalpha`
is true on further Unicode letters; none of those reach the call sites
modelled here with a value the theorems below depend on.) -/
def pyIsAlpha (c : Char) : Bool :=
  c.isAlpha || (0x370 ≤ c.toNat && c.toNat ≤ 0x3FF)

/-- Python `str.strip()` (both ends, whitespace). -/
def pyStrip (s : String) : String :=
  ⟨((s.data.dropWhile isPySpace).reverse.dropWhile isPySpace).reverse⟩

/-- Python `str.startswith(pre)`. -/
def pyStartsWith (s pre : String) : Bool :=
  pre.data.isPrefixOf s.data

/-- Python `needle in hay` on strings (substring containment). -/
def pyInStr (needle hay : List Char) : Bool :=
  if needle.isPrefixOf hay then true
  else
    match hay with
    | [] => false
    | _ :: t => pyInStr needle t

/-- Python `str.isalpha()` on a whole string: non-empty and all alphabetic. -/
def pyStrIsAlpha (s : String) : Bool :=
  !s.data.isEmpty && s.data.all pyIsAlpha

/-- Python `str.replace(pat, rep)`: replace all non-overlapping occurrences,
left to right. -/
def pyReplaceList (hay pat rep : List Char) : List Char :=
  match hay with
  | [] => []
  | c :: t =>
    if pat ≠ [] && pat.isPrefixOf (c :: t) then
      -- consuming the match consumes `c` plus `pat.length - 1` chars of `t`
      rep ++ pyReplaceList (t.drop (pat.length - 1)) pat rep
    else
      c :: pyReplaceList t pat rep
termination_by hay.length
decreasing_by
  · simp [List.length_drop]
    omega
  · simp

def pyReplace (hay pat rep : String) : String :=
  ⟨pyReplaceList hay.data pat.data rep.data⟩

/-- Python slice `l[a:b]` for natural `a`, `b`. -/
def pySlice (l : List α) (a b : Nat) : List α :=
  (l.drop a).take (b - a)

/-- Python `int(...)` on a non-empty digit string (the only use in the source
is on a `\d+` capture). -/
def digitsToNat (ds : List Char) : Nat :=
  ds.foldl (fun acc c => acc * 10 + (c.toNat - '0'.toNat)) 0

/-- lxml's `elem.tag.split("}")[-1]`: the local name after the
`{namespace}` prefix (the whole tag when no `}` occurs). -/
def localName (tag : String) : String :=
  ⟨(tag.data.reverse.takeWhile (· != '}')).reverse⟩

/-! ## Python dict (string keys, insertion order irrelevant to lookups) -/

/-- Python dict assignment `d[k] = v`: overwrite in place if present, else append. -/
def dictInsert (d : List (String × α)) (k : String) (v : α) : List (String × α) :=
  if d.any (fun p => p.1 == k) then
    d.map (fun p => if p.1 == k then (k, v) else p)
  else
    d ++ [(k, v)]

/-- Python dict lookup `d.get(k)`. -/
def dictGet (d : List (String × α)) (k : String) : Option α :=
  (d.find? (fun p => p.1 == k)).map (·.2)

/-- Python truthiness of an `Optional[int]` (`None` and `0` are falsy). -/
def pyTruthy : Option Nat → Bool
  | none => false
  | some n => n != 0

/-! ## `UNICODE_TO_LATEX` -/

/-- The `UNICODE_TO_LATEX` dict of `convert.py`: Unicode math characters
mapped to their LaTeX replacement (`none` = character not in the dict). -/
def UNICODE_TO_LATEX (c : Char) : Option String :=
  match c with
  | 'κ' => some "\\kappa"
  | 'φ' => some "\\varphi"
  | 'δ' => some "\\delta"
  | 'Σ' => some "\\Sigma"
  | 'σ' => some "\\sigma"
  | 'π' => some "\\pi"
  | 'α' => some "\\alpha"
  | 'β' => some "\\beta"
  | 'γ' => some "\\gamma"
  | 'ε' => some "\\varepsilon"
  | 'ζ' => some "\\zeta"
  | 'η' => some "\\eta"
  | 'θ' => some "\\theta"
  | 'λ' => some "\\lambda"
  | 'μ' => some "\\mu"
  | 'ν' => some "\\nu"
  | 'ξ' => some "\\xi"
  | 'ρ' => some "\\rho"
  | 'τ' => some "\\tau"
  | 'ω' => some "\\omega"
  | 'Ω' => some "\\Omega"
  | 'Δ' => some "\\Delta"
  | 'Φ' => some "\\Phi"
  | 'Γ' => some "\\Gamma"
  | 'Λ' => some "\\Lambda"
  | 'Π' => some "\\Pi"
  | 'Θ' => some "\\Theta"
  | '∈' => some "\\in"
  | '∉' => some "\\notin"
  | '⊂' => some "\\subset"
  | '⊆' => some "\\subseteq"
  | '⊃' => some "\\supset"
  | '∪' => some "\\cup"
  | '∩' => some "\\cap"
  | '∅' => some "\\emptyset"
  | '∞' => some "\\infty"
  | '≤' => some "\\leq"
  | '≥' => some "\\geq"
  | '≠' => some "\\neq"
  | '≈' => some "\\approx"
  | '≡' => some "\\equiv"
  | '±' => some "\\pm"
  | '×' => some "\\times"
  | '÷' => some "\\div"
  | '·' => some "\\cdot"
  | '→' => some "\\to"
  | '←' => some "\\leftarrow"
  | '↔' => some "\\leftrightarrow"
  | '⇒' => some "\\Rightarrow"
  | '⇐' => some "\\Leftarrow"
  | '⇔' => some "\\Leftrightarrow"
  | '∀' => some "\\forall"
  | '∃' => some "\\exists"
  | '¬' => some "\\neg"
  | '∧' => some "\\wedge"
  | '∨' => some "\\vee"
  | '⊕' => some "\\oplus"
  | '⊗' => some "\\otimes"
  | 'ℕ' => some "\\mathbb\x7bN\x7d"
  | 'ℤ' => some "\\mathbb\x7bZ\x7d"
  | 'ℝ' => some "\\mathbb\x7bR\x7d"
  | 'ℚ' => some "\\mathbb\x7bQ\x7d"
  | 'ℂ' => some "\\mathbb\x7bC\x7d"
  | '′' => some "\x27"
  | '″' => some "\x27\x27"
  | '∣' => some "|"
  | '⌀' => some "\\emptyset"
  | '∼' => some "\\sim"
  | '≾' => some "\\precsim"
  | '𝜅' => some "\\kappa"
  | '\u2061' => some ""   -- function application (invisible)
  | '\u200b' => some ""   -- zero-width space
  | '\u200c' => some ""   -- zero-width non-joiner
  | '\u2009' => some "\\,"  -- thin space
  | '\u2005' => some "\\;"  -- four-per-em space
  | _ => none

/-! ## `_latex_escape_text` -/

/-- Test `re.search(r'\\[a-zA-Z]+$', prev)`: `prev` ends in a backslash followed
by one or more ASCII letters. -/
def endsWithCmd (prev : String) : Bool :=
  let r := prev.data.reverse
  let letters := r.takeWhile Char.isAlpha
  !letters.isEmpty && (r.drop letters.length).head? == some '\\'

/-- One iteration of the `for ch in text` loop of `_latex_escape_text`,
acting on the `out` piece list. -/
def escStep (out : List String) (ch : Char) : List String :=
  match UNICODE_TO_LATEX ch with
  | some replacement =>
    -- if previous output ends with \command and this replacement starts
    -- with a letter, add space
    let needSpace :=
      match out.getLast?, replacement.data with
      | some prev, r0 :: _ => endsWithCmd prev && pyIsAlpha r0
      | _, _ => false
    (if needSpace then out ++ [" "] else out) ++ [replacement]
  | none =>
    if ("#$%&_\x7b\x7d".data.contains ch) then out ++ ["\\" ++ ch.toString]
    else if ch == '~' then out ++ ["\\sim"]
    else if ch == '^' then out ++ ["\\hat\x7b\x7d"]
    else if ch == '\\' then out ++ ["\\backslash"]
    else
      -- if previous output ends with \command and this char is a letter
      let needSpace :=
        match out.getLast? with
        | some prev => pyIsAlpha ch && endsWithCmd prev
        | none => false
      (if needSpace then out ++ [" "] else out) ++ [ch.toString]

/-- Function `_latex_escape_text`: escape a text string for LaTeX, converting Unicode
math symbols; `"".join(out)` at the end. -/
def latexEscapeText (text : String) : String :=
  String.join (text.data.foldl escStep [])

/-! ## `_join_latex_parts` -/

/-- One iteration of the loop of `_join_latex_parts`. -/
def joinStep (result : List String) (part : String) : List String :=
  if part.isEmpty then result
  else
    let needSpace :=
      match result.getLast?, part.data with
      | some prev, p0 :: _ => endsWithCmd prev && pyIsAlpha p0
      | _, _ => false
    (if needSpace then result ++ [" "] else result) ++ [part]

/-- Function `_join_latex_parts`: join LaTeX parts, adding spaces where a command
would run into a letter. -/
def joinLatexParts (parts : List String) : String :=
  String.join (parts.foldl joinStep [])

/-! ## XML model and `omml_to_latex` -/

def MATH_NS : String := "http://schemas.openxmlformats.org/officeDocument/2006/math"
def WORD_NS : String := "http://schemas.openxmlformats.org/wordprocessingml/2006/main"

/-- An lxml element as `convert.py` consumes it: the (namespaced) tag, the
`m:val`/`w:val` attribute when present (the only attribute the source reads,
via `prop.get(qn, default)`), the element text (`elem.text`), and the
children in document order. -/
inductive Xml where
  | mk (tag : String) (attrVal : Option String) (txt : Option String) (children : List Xml)

def Xml.tag : Xml → String | .mk t _ _ _ => t
def Xml.attrVal : Xml → Option String | .mk _ v _ _ => v
def Xml.txt : Xml → Option String | .mk _ _ tx _ => tx
def Xml.children : Xml → List Xml | .mk _ _ _ cs => cs

/-- Qualified math tag `{MATH_NS}local` (`_mtag`). -/
def mtag (l : String) : String := "\x7b" ++ MATH_NS ++ "\x7d" ++ l

/-- Qualified word tag `{WORD_NS}local` (`_wtag`). -/
def wtag (l : String) : String := "\x7b" ++ WORD_NS ++ "\x7d" ++ l

/-- The `last assignment wins` pattern of the `for child in elem` loops:
given the (localTag, translation) pairs of the children, the translation of
the last child with local tag `t`, or `""` when there is none. -/
def lastTag (ps : List (String × String)) (t : String) : String :=
  ps.foldl (fun acc p => if p.1 == t then p.2 else acc) ""

/-- The `naryPr` scan of the `nary` branch: walks the children, and inside
each `naryPr` child walks its property children, updating
(`char`, `sup_hide`, `sub_hide`) from `chr`/`supHide`/`subHide`. -/
def naryProps (children : List Xml) : String × Bool × Bool :=
  children.foldl
    (fun acc c =>
      if localName c.tag == "naryPr" then
        c.children.foldl
          (fun acc p =>
            let pt := localName p.tag
            if pt == "chr" then (p.attrVal.getD "∑", acc.2.1, acc.2.2)
            else if pt == "supHide" then (acc.1, (p.attrVal.getD "0") == "1", acc.2.2)
            else if pt == "subHide" then (acc.1, acc.2.1, (p.attrVal.getD "0") == "1")
            else acc)
          acc
      else acc)
    ("∑", false, false)

/-- Table `nary_map`: n-ary operator glyph to LaTeX command. -/
def naryMap (char : String) : Option String :=
  if char == "∑" then some "\\sum"
  else if char == "∏" then some "\\prod"
  else if char == "∫" then some "\\int"
  else if char == "∮" then some "\\oint"
  else if char == "⋃" then some "\\bigcup"
  else if char == "⋂" then some "\\bigcap"
  else none

/-- The `dPr` scan of the `d` branch: begin/end delimiter characters,
defaulting to `(` and `)`. -/
def delimProps (children : List Xml) : String × String :=
  children.foldl
    (fun acc c =>
      if localName c.tag == "dPr" then
        c.children.foldl
          (fun acc p =>
            let pt := localName p.tag
            if pt == "begChr" then (p.attrVal.getD "(", acc.2)
            else if pt == "endChr" then (acc.1, p.attrVal.getD ")")
            else acc)
          acc
      else acc)
    ("(", ")")

/-- Table `delim_map`: delimiter characters to auto-sizing LaTeX commands. -/
def delimMap (c : String) : Option String :=
  if c == "(" then some "\\left("
  else if c == ")" then some "\\right)"
  else if c == "[" then some "\\left["
  else if c == "]" then some "\\right]"
  else if c == "\x7b" then some "\\left\\\x7b"
  else if c == "\x7d" then some "\\right\\\x7d"
  else if c == "|" then some "\\left|"
  else if c == "⟨" then some "\\left\\langle"
  else if c == "⟩" then some "\\right\\rangle"
  else if c == "‖" then some "\\left\\|"
  else none

/-- The `accPr` scan of the `acc` branch: the accent glyph, defaulting to
the combining circumflex. -/
def accProps (children : List Xml) : String :=
  children.foldl
    (fun acc c =>
      if localName c.tag == "accPr" then
        c.children.foldl
          (fun acc p =>
            if localName p.tag == "chr" then p.attrVal.getD "\u0302" else acc)
          acc
      else acc)
    "\u0302"

/-- Table `acc_map`: accent glyph to LaTeX accent command name.  In the source the
literal keys `"̂"`, `"̃"`, `"̄"` are the same strings as `"\u0302"`,
`"\u0303"`, `"\u0304"` (duplicate dict keys with equal values), so the
effective map has one entry per codepoint. -/
def accMap (c : String) : Option String :=
  if c == "\u0302" then some "hat"
  else if c == "\u0300" then some "grave"
  else if c == "\u0301" then some "acute"
  else if c == "\u0303" then some "tilde"
  else if c == "\u0304" then some "bar"
  else if c == "\u0307" then some "dot"
  else if c == "\u0308" then some "ddot"
  else if c == "\u20d7" then some "vec"
  else if c == "→" then some "vec"
  else none

/-- The `groupChrPr` scan of the `groupChr` branch: glyph (default `⏟`) and
position (default `"bot"`). -/
def groupChrProps (children : List Xml) : String × String :=
  children.foldl
    (fun acc c =>
      if localName c.tag == "groupChrPr" then
        c.children.foldl
          (fun acc p =>
            let pt := localName p.tag
            if pt == "chr" then (p.attrVal.getD "⏟", acc.2)
            else if pt == "pos" then (acc.1, p.attrVal.getD "bot")
            else acc)
          acc
      else acc)
    ("⏟", "bot")

/-- The `r` branch's child scan: accumulated `m:t` text and the
`rPr/sty val="p"` plain-style flag. -/
def runScan (children : List Xml) : String × Bool :=
  children.foldl
    (fun acc c =>
      let ct := localName c.tag
      if ct == "t" then (acc.1 ++ c.txt.getD "", acc.2)
      else if ct == "rPr" then
        (acc.1,
         c.children.foldl
           (fun fl p =>
             if localName p.tag == "sty" then
               (if p.attrVal.getD "" == "p" then true else fl)
             else fl)
           acc.2)
      else acc)
    ("", false)

/-- Set `known_funcs` of the `func` branch. -/
def knownFuncs : List String :=
  ["sin", "cos", "tan", "log", "ln", "exp", "lim",
   "max", "min", "sup", "inf", "det", "gcd"]

/-- The container tags that recurse-and-join, from the penultimate branch of
`omml_to_latex`. -/
def containerTags : List String :=
  ["e", "num", "den", "sub", "sup", "deg", "lim", "fName"]

/-- The property-holder tags that translate to `""`, from the penultimate
branch of `omml_to_latex`. -/
def propertyTags : List String :=
  ["oMathParaPr", "ctrlPr", "sSubPr", "sSupPr", "sSubSupPr",
   "dPr", "fPr", "naryPr", "accPr", "radPr", "funcPr",
   "eqArrPr", "groupChrPr", "mPr", "boxPr", "limUppPr", "limLowPr",
   "rPr"]

/-- Every local tag `omml_to_latex` dispatches on before its final
recurse-and-join fallback. -/
def recognizedTags : List String :=
  ["oMathPara", "oMath", "r", "sSub", "sSup", "sSubSup", "d", "f", "nary",
   "acc", "rad", "limUpp", "limLow", "func", "eqArr", "groupChr", "m", "box"]
  ++ containerTags ++ propertyTags

mutual

/-- Function `omml_to_latex`: recursively convert an OMML element to a LaTeX string. -/
def ommlToLatex (e : Xml) : String :=
  match e with
  | .mk tag _ _ children =>
    let t := localName tag
    if t == "oMathPara" then
      -- display math paragraph: "".join of the inner oMath translations
      String.join ((ommlChildren children).filterMap
        (fun p => if p.1 == "oMath" then some p.2 else none))
    else if t == "oMath" then
      joinLatexParts ((ommlChildren children).map Prod.snd)
    else if t == "r" then
      let (text, isNormal) := runScan children
      let latex := latexEscapeText text
      if isNormal && !(pyStrip latex).isEmpty then
        let stripped := pyStrip text
        if stripped.data.length > 1 && pyStrIsAlpha stripped then
          "\\text\x7b" ++ stripped ++ "\x7d"
        else latex
      else latex
    else if t == "sSub" then
      let ps := ommlChildren children
      lastTag ps "e" ++ "_\x7b" ++ lastTag ps "sub" ++ "\x7d"
    else if t == "sSup" then
      let ps := ommlChildren children
      lastTag ps "e" ++ "^\x7b" ++ lastTag ps "sup" ++ "\x7d"
    else if t == "sSubSup" then
      let ps := ommlChildren children
      lastTag ps "e" ++ "_\x7b" ++ lastTag ps "sub" ++ "\x7d^\x7b" ++
        lastTag ps "sup" ++ "\x7d"
    else if t == "d" then
      let (begChr, endChr) := delimProps children
      let begLatex := (delimMap begChr).getD ("\\left" ++ begChr)
      let endLatex := (delimMap endChr).getD ("\\right" ++ endChr)
      let endLatex := if endChr == "|" then "\\right|" else endLatex
      let endLatex := if endChr == "‖" then "\\right\\|" else endLatex
      let parts := (ommlChildren children).filterMap
        (fun p => if p.1 == "e" then some p.2 else none)
      let inner := if parts.length > 1 then
          String.intercalate ", " parts
        else String.join parts
      begLatex ++ inner ++ endLatex
    else if t == "f" then
      let ps := ommlChildren children
      "\\frac\x7b" ++ lastTag ps "num" ++ "\x7d\x7b" ++ lastTag ps "den" ++ "\x7d"
    else if t == "nary" then
      let ps := ommlChildren children
      let props := naryProps children
      let subVal := lastTag ps "sub"
      let supVal := lastTag ps "sup"
      let body := lastTag ps "e"
      let op := (naryMap props.1).getD "\\sum"
      let result := op
      let result := if !subVal.isEmpty && !props.2.2 then
          result ++ "_\x7b" ++ subVal ++ "\x7d" else result
      let result := if !supVal.isEmpty && !props.2.1 then
          result ++ "^\x7b" ++ supVal ++ "\x7d" else result
      result ++ " " ++ body
    else if t == "acc" then
      let ps := ommlChildren children
      let char := accProps children
      let cmd := (accMap char).getD "hat"
      "\\" ++ cmd ++ "\x7b" ++ lastTag ps "e" ++ "\x7d"
    else if t == "rad" then
      let ps := ommlChildren children
      let deg := lastTag ps "deg"
      let body := lastTag ps "e"
      if !(pyStrip deg).isEmpty then
        "\\sqrt[" ++ deg ++ "]\x7b" ++ body ++ "\x7d"
      else
        "\\sqrt\x7b" ++ body ++ "\x7d"
    else if t == "limUpp" then
      let ps := ommlChildren children
      "\\overset\x7b" ++ lastTag ps "lim" ++ "\x7d\x7b" ++ lastTag ps "e" ++ "\x7d"
    else if t == "limLow" then
      let ps := ommlChildren children
      "\\underset\x7b" ++ lastTag ps "lim" ++ "\x7d\x7b" ++ lastTag ps "e" ++ "\x7d"
    else if t == "func" then
      let ps := ommlChildren children
      let fname := pyStrip (lastTag ps "fName")
      let body := lastTag ps "e"
      let clean := pyReplace (pyReplace fname "\\mathrm\x7b" "") "\x7d" ""
      if knownFuncs.contains clean then
        "\\" ++ clean ++ " " ++ body
      else
        "\\operatorname\x7b" ++ fname ++ "\x7d " ++ body
    else if t == "eqArr" then
      let lines := (ommlChildren children).filterMap
        (fun p => if p.1 == "e" then some p.2 else none)
      String.intercalate " \\\\ " lines
    else if t == "groupChr" then
      let ps := ommlChildren children
      let (char, pos) := groupChrProps children
      let body := lastTag ps "e"
      if pos == "top" || char == "⏞" then
        "\\overbrace\x7b" ++ body ++ "\x7d"
      else
        "\\underbrace\x7b" ++ body ++ "\x7d"
    else if t == "m" then
      "\\begin\x7bpmatrix\x7d " ++
        String.intercalate " \\\\ " (ommlRows children) ++
        " \\end\x7bpmatrix\x7d"
    else if t == "box" then
      lastTag (ommlChildren children) "e"
    else if containerTags.contains t || propertyTags.contains t then
      if containerTags.contains t then
        joinLatexParts ((ommlChildren children).map Prod.snd)
      else ""  -- properties: skip
    else
      -- fallback: recurse
      joinLatexParts ((ommlChildren children).map Prod.snd)

/-- The translations of a child list, each paired with its local tag (the
`ct = child.tag.split("}")[-1]` / `omml_to_latex(child)` pattern). -/
def ommlChildren : List Xml → List (String × String)
  | [] => []
  | c :: rest => (localName c.tag, ommlToLatex c) :: ommlChildren rest

/-- The `mr` row scan of the `m` (matrix) branch. -/
def ommlRows : List Xml → List String
  | [] => []
  | c :: rest =>
    if localName c.tag == "mr" then ommlRow c :: ommlRows rest
    else ommlRows rest

/-- One `mr` row: its `e` children translated and joined with `" & "`. -/
def ommlRow : Xml → String
  | .mk _ _ _ children =>
    String.intercalate " & "
      ((ommlChildren children).filterMap
        (fun p => if p.1 == "e" then some p.2 else none))

end

/-! ## `is_section_heading` / `classify_heading_level` -/

/-- CPython backtracking state of `\d+(\.\d+)*\.?\s` after the leading
`\d+` (and, recursively, after each `\.\d+` group): try more `\.\d+`
groups, else the optional `\.`, else `\s`.  Whitespace, `.` and digits are
disjoint, so the greedy scan needs no further backtracking. -/
def numPrefixLoop : List Char → Bool
  | [] => false
  | c :: rest =>
    if c.isDigit then numPrefixLoop rest
    else if c == '.' then
      match rest with
      | [] => false
      | c2 :: rest2 =>
        if c2.isDigit then numPrefixLoop rest2
        else isPySpace c2
    else isPySpace c

/-- Test `re.match(r"^\d+(\.\d+)*\.?\s", s)` as a Boolean. -/
def numHeadingMatch (s : String) : Bool :=
  let cs := s.data
  let ds := cs.takeWhile Char.isDigit
  !ds.isEmpty && numPrefixLoop (cs.drop ds.length)

/-- A `\.\d+` group attempt (used by both regexes of
`classify_heading_level`): consumes a dot and a maximal non-empty digit
run. -/
def matchDotDigits : List Char → Option (String × List Char)
  | '.' :: rest =>
    let ds := rest.takeWhile Char.isDigit
    if ds.isEmpty then none else some (⟨ds⟩, rest.drop ds.length)
  | _ => none

/-- Match `re.match(r"^(\d+)(?:\.(\d+))?(?:\.(\d+))?" ++ end, s)` where `end` is
the final single-character test, with CPython's backtracking order over the
two optional groups: (A,B), (A,ε), (ε,B), (ε,ε) — the first state whose
remainder passes `endTest` wins.  Inside each group the `\d+` is forced
maximal (a shorter match would leave a digit where `\.` or `endTest` must
match).  Returns the three capture groups. -/
def matchNumbered (endTest : Char → Bool) (s : String) :
    Option (String × Option String × Option String) :=
  let cs := s.data
  let ds := cs.takeWhile Char.isDigit
  if ds.isEmpty then none
  else
    let g1 : String := ⟨ds⟩
    let rest := cs.drop ds.length
    let fin : List Char → Bool := fun r =>
      match r with
      | c :: _ => endTest c
      | [] => false
    (match matchDotDigits rest with
     | some (g2, r2) =>
       (match matchDotDigits r2 with
        | some (g3, r3) =>
          if fin r3 then some (g1, some g2, some g3)
          else if fin r2 then some (g1, some g2, none)
          else none
        | none =>
          if fin r2 then some (g1, some g2, none) else none)
     | none => none)
    <|>
    (match matchDotDigits rest with
     | some (g3, r3) => if fin r3 then some (g1, none, some g3) else none
     | none => none)
    <|>
    (if fin rest then some (g1, none, none) else none)

/-- Function `classify_heading_level`: determine h2/h3/h4 level from numbered heading
text.  First regex ends in `\.`, the fallback ends in `\s`; a group's
truthiness is its presence (captures are non-empty digit runs). -/
def classify_heading_level (text : String) : String :=
  let t := pyStrip text
  let m := match matchNumbered (· == '.') t with
    | some r => some r
    | none => matchNumbered isPySpace t
  match m with
  | some (_, g2, g3) =>
    if g3.isSome then "h4"
    else if g2.isSome then "h3"
    else "h2"
  | none => "h2"

/-! ## The `python-docx` interface -/

/-- A paragraph at the interface `convert.py` uses: its style name and the
XML children of its `w:p` element (`paragraph._element`). -/
structure Paragraph where
  styleName : String
  children : List Xml

/-- A table at the interface `convert.py` uses: rows of cell texts. -/
structure Table where
  rows : List (List String)

/-- One entry of the `elements` list built by `parse_document`:
`("paragraph", p)` or `("table", t)`. -/
inductive Element where
  | para (p : Paragraph)
  | table (t : Table)

/-- Tri-state truthiness of `python-docx`'s `run.bold` / `run.italic`
(`None` and `False` are falsy). -/
def truthyTri (o : Option Bool) : Bool := o == some true

/-- The runs of a paragraph (`paragraph.runs`): its `w:r` children. -/
def pyRuns (p : Paragraph) : List Xml :=
  p.children.filter (fun c => c.tag == wtag "r")

/-- A run's text (`run.text`): the concatenated `w:t` children. -/
def runText (r : Xml) : String :=
  String.join (r.children.filterMap
    (fun c => if c.tag == wtag "t" then some (c.txt.getD "") else none))

/-- The paragraph text (`paragraph.text`): the concatenated run texts.
Embedded math contributes nothing (its runs are `m:r`, not `w:r`). -/
def paraText (p : Paragraph) : String :=
  String.join ((pyRuns p).map runText)

/-- Tri-state `run.bold` from `w:rPr/w:b`: `none` when no `b` element,
otherwise the `val` attribute (absent = true, `"false"`/`"0"` = false). -/
def runBold (r : Xml) : Option Bool :=
  match r.children.find? (fun c => c.tag == wtag "rPr") with
  | none => none
  | some pr =>
    match pr.children.find? (fun c => c.tag == wtag "b") with
    | none => none
    | some b =>
      let v := b.attrVal.getD "true"
      some (!(v == "false") && !(v == "0"))

/-- Tri-state `run.italic` from `w:rPr/w:i`. -/
def runItalic (r : Xml) : Option Bool :=
  match r.children.find? (fun c => c.tag == wtag "rPr") with
  | none => none
  | some pr =>
    match pr.children.find? (fun c => c.tag == wtag "i") with
    | none => none
    | some b =>
      let v := b.attrVal.getD "true"
      some (!(v == "false") && !(v == "0"))

/-- Python `html.escape` (with quotes). -/
def htmlEscape (s : String) : String :=
  ⟨(s.data.map (fun c =>
    if c == '&' then "&amp;".data
    else if c == '<' then "&lt;".data
    else if c == '>' then "&gt;".data
    else if c == '"' then "&quot;".data
    else if c == '\x27' then "&#x27;".data
    else [c])).flatten⟩

/-! ## Renderers: paragraphs, tables, sections -/

/-- Function `is_section_heading`: detect numbered sub-section headings like
`4.1 Title`: leading numeric pattern AND (all non-empty runs bold OR style
`"Body Text"`). -/
def is_section_heading (p : Paragraph) : Bool :=
  let text := pyStrip (paraText p)
  if text.isEmpty then false
  else if numHeadingMatch text then
    if !(pyRuns p).isEmpty &&
        (pyRuns p).all (fun r =>
          if !(pyStrip (runText r)).isEmpty then truthyTri (runBold r) else true) then
      true
    else if p.styleName == "Body Text" then true
    else false
  else false

/-- Function `para_has_content`: visible text or an `m:`-namespaced child. -/
def paraHasContent (p : Paragraph) : Bool :=
  !(pyStrip (paraText p)).isEmpty ||
    p.children.any (fun c => pyInStr MATH_NS.data c.tag.data)

/-- The `w:r` scan of `_para_xml_to_html`: text from local-`t` children, and
bold/italic from `rPr` with `w:val` defaulting to `"true"`. -/
def wordRunScan (children : List Xml) : String × Bool × Bool :=
  children.foldl
    (fun acc rc =>
      let rt := localName rc.tag
      if rt == "t" then (acc.1 ++ rc.txt.getD "", acc.2.1, acc.2.2)
      else if rt == "rPr" then
        rc.children.foldl
          (fun acc rp =>
            let rpt := localName rp.tag
            if rpt == "b" then
              let v := rp.attrVal.getD "true"
              (acc.1, !(v == "false") && !(v == "0"), acc.2.2)
            else if rpt == "i" then
              let v := rp.attrVal.getD "true"
              (acc.1, acc.2.1, !(v == "false") && !(v == "0"))
            else acc)
          acc
      else acc)
    ("", false, false)

/-- Function `_para_xml_to_html`: walk the paragraph's XML to interleave text
runs and math; returns the HTML and the display-math flag. -/
def paraXmlToHtml (p : Paragraph) : String × Bool :=
  let (parts, hasDisp) := p.children.foldl
    (fun (acc : List String × Bool) child =>
      let (parts, hasDisp) := acc
      let tag := localName child.tag
      if tag == "r" then
        let (text, bold, italic) := wordRunScan child.children
        if !text.isEmpty then
          let t := htmlEscape text
          let t :=
            if bold && italic then "<strong><em>" ++ t ++ "</em></strong>"
            else if bold then "<strong>" ++ t ++ "</strong>"
            else if italic then "<em>" ++ t ++ "</em>"
            else t
          (parts ++ [t], hasDisp)
        else (parts, hasDisp)
      else if tag == "oMathPara" then
        let latex := pyStrip (ommlToLatex child)
        if !latex.isEmpty then (parts ++ ["\\[" ++ latex ++ "\\]"], true)
        else (parts, hasDisp)
      else if tag == "oMath" then
        let latex := pyStrip (ommlToLatex child)
        if !latex.isEmpty then (parts ++ ["\\(" ++ latex ++ "\\)"], hasDisp)
        else (parts, hasDisp)
      else (parts, hasDisp))
    ([], false)
  (String.join parts, hasDisp)

/-- Function `runs_to_html`: a paragraph's runs as HTML with bold/italic,
falling back to the escaped paragraph text when all parts are empty. -/
def runsToHtml (p : Paragraph) : String :=
  let parts := (pyRuns p).foldl
    (fun parts run =>
      let text := htmlEscape (runText run)
      if text.isEmpty then parts
      else
        let text :=
          if truthyTri (runBold run) && truthyTri (runItalic run) then
            "<strong><em>" ++ text ++ "</em></strong>"
          else if truthyTri (runBold run) then "<strong>" ++ text ++ "</strong>"
          else if truthyTri (runItalic run) then "<em>" ++ text ++ "</em>"
          else text
        parts ++ [text])
    []
  let joined := String.join parts
  if joined.isEmpty then htmlEscape (paraText p) else joined

/-- Function `paragraph_to_html`: math-aware when any child is in the math
namespace, else plain run rendering (never display math). -/
def paragraphToHtml (p : Paragraph) : String × Bool :=
  if p.children.any (fun c => pyInStr MATH_NS.data c.tag.data) then
    paraXmlToHtml p
  else (runsToHtml p, false)

/-- Function `table_to_html`: row-major table, first row as header cells. -/
def tableToHtml (t : Table) : String :=
  let rowsHtml := t.rows.enum.map
    (fun p =>
      let tg := if p.1 == 0 then "th" else "td"
      "<tr>" ++
        String.join (p.2.map
          (fun c => "<" ++ tg ++ ">" ++ htmlEscape c ++ "</" ++ tg ++ ">")) ++
        "</tr>")
  "<table>\n" ++ String.intercalate "\n" rowsHtml ++ "\n</table>"

/-- The loop of `section_to_html`, carrying `skipped`, the accumulated
`html_parts`, and `has_math`. -/
def sectionGo (skipCount : Nat) :
    List Element → Nat → List String → Bool → List String × Bool
  | [], _, parts, hasMath => (parts, hasMath)
  | .table t :: rest, skipped, parts, hasMath =>
    sectionGo skipCount rest skipped (parts ++ [tableToHtml t]) hasMath
  | .para p :: rest, skipped, parts, hasMath =>
    if !paraHasContent p then sectionGo skipCount rest skipped parts hasMath
    else if skipped < skipCount then
      sectionGo skipCount rest (skipped + 1) parts hasMath
    else if pyStartsWith p.styleName "Heading" then
      sectionGo skipCount rest skipped
        (parts ++ ["<h1>" ++ runsToHtml p ++ "</h1>"]) hasMath
    else
      let text := pyStrip (paraText p)
      if is_section_heading p then
        let level := classify_heading_level text
        let content := (paragraphToHtml p).1
        sectionGo skipCount rest skipped
          (parts ++ ["<" ++ level ++ ">" ++ content ++ "</" ++ level ++ ">"])
          hasMath
      else
        let pr := paragraphToHtml p
        if pr.2 then
          sectionGo skipCount rest skipped
            (parts ++ ["<div class=\"math-display\">" ++ pr.1 ++ "</div>"]) true
        else
          let hasMath := if pyInStr "\\(".data pr.1.data then true else hasMath
          if pyStartsWith text "•" || pyStartsWith text "- " then
            sectionGo skipCount rest skipped
              (parts ++ ["<p class=\"list-item\">" ++ pr.1 ++ "</p>"]) hasMath
          else
            sectionGo skipCount rest skipped
              (parts ++ ["<p>" ++ pr.1 ++ "</p>"]) hasMath

/-- Function `section_to_html`: a section's element list to HTML body content
plus the aggregated math flag. -/
def section_to_html (sectionElements : List Element) (skipCount : Nat) :
    String × Bool :=
  let pr := sectionGo skipCount sectionElements 0 [] false
  (String.intercalate "\n" pr.1, pr.2)

/-! ## `split_into_sections` -/

/-- The first loop of `split_into_sections`: `elem_indices` maps each
paragraph ordinal (`para_idx`) to its absolute element index. -/
def elemIndicesGo : List Element → Nat → Nat → List (Nat × Nat)
  | [], _, _ => []
  | .para _ :: rest, paraIdx, ei => (paraIdx, ei) :: elemIndicesGo rest (paraIdx + 1) (ei + 1)
  | .table _ :: rest, paraIdx, ei => elemIndicesGo rest paraIdx (ei + 1)

def elemIndices (elements : List Element) : List (Nat × Nat) :=
  elemIndicesGo elements 0 0

/-- Lookup `elem_indices.get(k, 0)`. -/
def elemIndexGetD (m : List (Nat × Nat)) (k : Nat) : Nat :=
  ((m.find? (fun p => p.1 == k)).map (·.2)).getD 0

/-- The second loop of `split_into_sections`: `heading1_indices` records
`(para_idx, element_index, text)` for every paragraph whose style name
starts with `"Heading"`. -/
def headingIndicesGo : List Element → Nat → Nat → List (Nat × Nat × String)
  | [], _, _ => []
  | .para p :: rest, paraIdx, ei =>
    if pyStartsWith p.styleName "Heading" then
      (paraIdx, ei, paraText p) :: headingIndicesGo rest (paraIdx + 1) (ei + 1)
    else headingIndicesGo rest (paraIdx + 1) (ei + 1)
  | .table _ :: rest, paraIdx, ei => headingIndicesGo rest paraIdx (ei + 1)

def headingIndices (elements : List Element) : List (Nat × Nat × String) :=
  headingIndicesGo elements 0 0

/-- Match `re.match(r"Chapter\s+(\d+)", s)`: returns the chapter number.
`\s+` and `\d+` are maximal (whitespace and digits are disjoint). -/
def matchChapterNum (s : String) : Option Nat :=
  let cs := s.data
  if "Chapter".data.isPrefixOf cs then
    let rest := cs.drop 7
    let sp := rest.takeWhile isPySpace
    if sp.isEmpty then none
    else
      let ds := (rest.drop sp.length).takeWhile Char.isDigit
      if ds.isEmpty then none else some (digitsToNat ds)
  else none

/-- The chapter-start scan: walk `heading1_indices` in order, skip `PART`
headings (they only update the unused `current_part`), and record
`(element_index, chapter_number)` for `Chapter <n>` headings. -/
def chapterStartsOf (hs : List (Nat × Nat × String)) : List (Nat × Nat) :=
  hs.filterMap (fun h =>
    let t := pyStrip h.2.2
    if pyStartsWith t "PART" then none
    else
      match matchChapterNum t with
      | some n => some (h.2.1, n)
      | none => none)

def chapterStarts (elements : List Element) : List (Nat × Nat) :=
  chapterStartsOf (headingIndices elements)

/-- The end-boundary loop of the chapter loop: the first heading entry
sitting in the element slot directly before `next_ei` whose stripped text
starts with `"PART"` backs the end up to its position (`pei + 1 == next_ei`
renders Python's `pei == next_ei - 1` without Nat truncation). -/
def chapterEndEi (hs : List (Nat × Nat × String)) (nextEi : Nat) : Nat :=
  match hs.find? (fun h => h.2.1 + 1 == nextEi && pyStartsWith (pyStrip h.2.2) "PART") with
  | some h => h.2.1
  | none => nextEi

/-- The `break`ing scan for the final chapter's `"APPENDIX A"` marker:
first paragraph whose stripped text equals the marker. -/
def firstMarkerIdx (elements : List Element) (marker : String) : Option Nat :=
  (elements.enum.find? (fun p =>
    match p.2 with
    | .para q => pyStrip (paraText q) == marker
    | .table _ => false)).map (·.1)

/-- The value stored for the chapter at position `idx` of `chapter_starts`. -/
def chapterSlice (elements : List Element) (hs : List (Nat × Nat × String))
    (cs : List (Nat × Nat)) (idx ei : Nat) : List Element :=
  if idx + 1 < cs.length then
    let nextEi := (cs.getD (idx + 1) (0, 0)).1
    pySlice elements ei (chapterEndEi hs nextEi)
  else
    let appA := firstMarkerIdx elements "APPENDIX A"
    if pyTruthy appA then pySlice elements ei (appA.getD 0)
    else elements.drop ei

/-- The chapter loop of `split_into_sections`, inserting
`sections[f"chapter-{ch_num}"]`. -/
def chapterLoop (elements : List Element) (hs : List (Nat × Nat × String))
    (cs : List (Nat × Nat)) (sections : List (String × List Element)) :
    List (String × List Element) :=
  cs.enum.foldl
    (fun d q =>
      dictInsert d ("chapter-" ++ toString q.2.2)
        (chapterSlice elements hs cs q.1 q.2.1))
    sections

/-- The final (non-`break`ing) appendix-marker loop: the LAST paragraph
equal to each marker wins. -/
def appendixMarkers (elements : List Element) : Option Nat × Option Nat :=
  elements.enum.foldl
    (fun acc p =>
      match p.2 with
      | .para q =>
        if pyStrip (paraText q) == "APPENDIX A" then (some p.1, acc.2)
        else if pyStrip (paraText q) == "APPENDIX B" then (acc.1, some p.1)
        else acc
      | .table _ => acc)
    (none, none)

/-- Function `split_into_sections`: preface, chapters, and appendices. -/
def split_into_sections (elements : List Element) : List (String × List Element) :=
  let elemIdx := elemIndices elements
  let hs := headingIndices elements
  let prefaceStart := elemIndexGetD elemIdx 77
  let prefaceEnd := elemIndexGetD elemIdx 92
  let sections := dictInsert ([] : List (String × List Element)) "preface"
    (pySlice elements prefaceStart prefaceEnd)
  let cs := chapterStartsOf hs
  let sections := chapterLoop elements hs cs sections
  let marks := appendixMarkers elements
  let sections :=
    if pyTruthy marks.1 && pyTruthy marks.2 then
      dictInsert sections "appendix-a"
        (pySlice elements (marks.1.getD 0) (marks.2.getD 0))
    else if pyTruthy marks.1 then
      dictInsert sections "appendix-a" (elements.drop (marks.1.getD 0))
    else sections
  let sections :=
    if pyTruthy marks.2 then
      dictInsert sections "appendix-b" (elements.drop (marks.2.getD 0))
    else sections
  sections

/-! ## Theorems -/

/-- C1.  The claim says one dot-separated numeric component before the first
space yields h2, two yield h3, three yield h4.  The code disagrees on the
space-terminated forms: the FIRST regex `^(\d+)(?:\.(\d+))?(?:\.(\d+))?\.`
backtracks its optional groups until the final `\.` consumes one of the
inner dots, so `"4.1 Title"` matches as `"4."` with both optional groups
empty (level h2, not h3) and `"4.1.1 Title"` matches as `"4.1."` (level h3,
not h4); the space-terminated fallback regex is preempted whenever a dot is
present.  This theorem evaluates the classifier at the failing inputs,
alongside the dot-terminated forms the first regex was written for, which
do classify as the claim describes. -/
theorem classify_heading_level_backtracking_bug :
    classify_heading_level "4.1 Title" = "h2" ∧
    classify_heading_level "4.1.1 Title" = "h3" ∧
    classify_heading_level "4 Title" = "h2" ∧
    classify_heading_level "4.1. Title" = "h3" ∧
    classify_heading_level "4.1.1. Title" = "h4" := by
  exact ⟨rfl, rfl, rfl, rfl, rfl⟩

/-- C10.  `classify_heading_level` is total and always returns one of
`"h2"`, `"h3"`, `"h4"`; when neither regex matches the (stripped) text, it
returns the default `"h2"`. -/
theorem classify_heading_level_total (s : String) :
    (classify_heading_level s = "h2" ∨ classify_heading_level s = "h3" ∨
      classify_heading_level s = "h4") ∧
    (matchNumbered (fun c => c == '.') (pyStrip s) = none →
      matchNumbered isPySpace (pyStrip s) = none →
      classify_heading_level s = "h2") := by
  constructor
  · unfold classify_heading_level
    dsimp only
    split
    · rename_i fst g2 g3 heq
      rcases g3 with _ | g3 <;> rcases g2 with _ | g2 <;> simp
    · simp
  · intro h1 h2
    unfold classify_heading_level
    dsimp only
    rw [h1, h2]

/-- C10 witness: a text with no leading numeric pattern (so neither regex
matches) classifies as the default `"h2"`. -/
theorem classify_heading_level_total_witness :
    matchNumbered (fun c => c == '.') (pyStrip "Introduction") = none ∧
    matchNumbered isPySpace (pyStrip "Introduction") = none ∧
    classify_heading_level "Introduction" = "h2" :=
  ⟨rfl, rfl, (classify_heading_level_total "Introduction").2 rfl rfl⟩

/-! ### C2: spacing between consecutive mapped commands -/

theorem string_data_append (a b : String) : (a ++ b).data = a.data ++ b.data := rfl

theorem string_data_empty : ("" : String).data = [] := rfl

theorem string_ext {a b : String} (h : a.data = b.data) : a = b := by
  cases a; cases b; exact congrArg String.mk h

theorem string_foldl_append_data (init : String) (l : List String) :
    (l.foldl (· ++ ·) init).data = init.data ++ (l.foldl (· ++ ·) "").data := by
  induction l generalizing init with
  | nil => simp
  | cons y ys ih =>
    simp only [List.foldl_cons]
    rw [ih (init ++ y), ih ("" ++ y)]
    simp [string_data_append, string_data_empty]

theorem stringJoin_append (l1 l2 : List String) :
    String.join (l1 ++ l2) = String.join l1 ++ String.join l2 := by
  apply string_ext
  unfold String.join
  rw [List.foldl_append, string_foldl_append_data (l1.foldl (· ++ ·) "") l2,
    string_data_append]

/-- C2 counterexample.  The claim says two consecutive characters mapped to
multi-letter backslash commands get exactly one space between the emitted
commands.  In the code the mapped branch only inserts a space when the
REPLACEMENT's first character is alphabetic (`replacement[0].isalpha()`),
and every mapped command starts with the escape character `\`, so for a math
run containing `αβ` the two commands are emitted with NO space between them:
the translation is `\alpha\beta` and contains zero spaces. -/
theorem run_consecutive_greek_emits_no_space :
    ommlToLatex (Xml.mk (mtag "r") none none
      [Xml.mk (mtag "t") none (some "αβ") []]) = "\\alpha\\beta" ∧
    "\\alpha\\beta".data.count ' ' = 0 :=
  ⟨rfl, rfl⟩

/-- C2 (amended).  Whenever the next character is mapped by
`UNICODE_TO_LATEX` to a replacement starting with the escape character
(every command in the table does), `_latex_escape_text` appends the
replacement with no separating space, whatever precedes it: the backslash
is not alphabetic, so the space rule never fires on a mapped replacement.
In particular translating a run text ending in two mapped Greek letters
concatenates their commands directly; determinism is immediate since the
translator is a pure function. -/
theorem latex_escape_mapped_backslash_no_space
    (s : String) (c₁ c₂ : Char) (r₁ r₂ : String)
    (_h₁ : UNICODE_TO_LATEX c₁ = some r₁)
    (h₂ : UNICODE_TO_LATEX c₂ = some r₂)
    (hb : r₂.data.head? = some '\\') :
    latexEscapeText ((s.push c₁).push c₂) = latexEscapeText (s.push c₁) ++ r₂ := by
  have hdata : ((s.push c₁).push c₂).data = (s.push c₁).data ++ [c₂] := rfl
  unfold latexEscapeText
  rw [hdata, List.foldl_append]
  have hstep : ∀ (out : List String), escStep out c₂ = out ++ [r₂] := by
    intro out
    unfold escStep
    rw [h₂]
    dsimp only
    rcases hr : r₂.data with _ | ⟨r0, rtl⟩
    · rw [hr] at hb; simp at hb
    · rw [hr] at hb
      simp only [List.head?_cons, Option.some.injEq] at hb
      subst hb
      have hpy : pyIsAlpha '\\' = false := by decide
      rcases hgl : out.getLast? with _ | prev <;> simp [hpy]
  simp only [List.foldl_cons, List.foldl_nil]
  rw [hstep]
  exact stringJoin_append _ _

/-- C2 witness: the amended no-space rule applied at `α` followed by `β`. -/
theorem latex_escape_mapped_backslash_no_space_witness :
    UNICODE_TO_LATEX 'α' = some "\\alpha" ∧
    UNICODE_TO_LATEX 'β' = some "\\beta" ∧
    "\\beta".data.head? = some '\\' ∧
    latexEscapeText (("".push 'α').push 'β') =
      latexEscapeText ("".push 'α') ++ "\\beta" :=
  ⟨rfl, rfl, rfl,
    latex_escape_mapped_backslash_no_space "" 'α' 'β' "\\alpha" "\\beta" rfl rfl rfl⟩

/-! ### Dictionary lemmas for the segmenter -/

theorem find_in_map {α : Type} (k : String) (v : α) :
    ∀ (d : List (String × α)), d.any (fun p => p.1 == k) = true →
      (d.map (fun p => if p.1 == k then (k, v) else p)).find?
        (fun p => p.1 == k) = some (k, v) := by
  intro d
  induction d with
  | nil => intro h; simp at h
  | cons p rest ih =>
    intro h
    by_cases hp : (p.1 == k) = true
    · simp only [List.map_cons, hp, if_true]
      rw [List.find?_cons_of_pos _ (by simp)]
    · simp only [List.map_cons, hp, if_false]
      rw [List.find?_cons_of_neg _ (by simp [hp])]
      apply ih
      rw [List.any_cons] at h
      simp only [hp, Bool.false_or] at h
      exact h

theorem find_in_append {α : Type} (k : String) (v : α) :
    ∀ (d : List (String × α)), d.any (fun p => p.1 == k) = false →
      (d ++ [(k, v)]).find? (fun p => p.1 == k) = some (k, v) := by
  intro d
  induction d with
  | nil =>
    intro _
    rw [List.nil_append, List.find?_cons_of_pos _ (by simp)]
  | cons p rest ih =>
    intro h
    rw [List.any_cons, Bool.or_eq_false_iff] at h
    rw [List.cons_append, List.find?_cons_of_neg _ (by simp [h.1])]
    exact ih h.2

/-- Lookup after a Python dict assignment at the same key. -/
theorem dictGet_insert_self {α : Type} (d : List (String × α)) (k : String) (v : α) :
    dictGet (dictInsert d k v) k = some v := by
  unfold dictInsert dictGet
  split
  · rename_i hany
    rw [find_in_map k v d hany]
    rfl
  · rename_i hany
    rw [find_in_append k v d (Bool.of_not_eq_true hany)]
    rfl

theorem find_map_ne {α : Type} (k k' : String) (v : α) (h : (k' == k) = false) :
    ∀ (d : List (String × α)),
      (d.map (fun p => if p.1 == k then (k, v) else p)).find?
        (fun p => p.1 == k') = d.find? (fun p => p.1 == k') := by
  have hkk' : (k == k') = false := by
    rw [beq_eq_false_iff_ne] at h ⊢
    exact fun hq => h hq.symm
  intro d
  induction d with
  | nil => rfl
  | cons p rest ih =>
    cases hp : (p.1 == k) with
    | true =>
      have hpk : p.1 = k := eq_of_beq hp
      simp only [List.map_cons]
      rw [if_pos hp, List.find?_cons, List.find?_cons]
      simp only [hpk, hkk']
      exact ih
    | false =>
      simp only [List.map_cons]
      rw [if_neg (by simp [hp]), List.find?_cons, List.find?_cons]
      cases hq : (p.1 == k') with
      | true => simp only [hq]
      | false => simp only [hq]; exact ih

theorem find_append_ne {α : Type} (k k' : String) (v : α) (h : (k' == k) = false) :
    ∀ (d : List (String × α)),
      (d ++ [(k, v)]).find? (fun p => p.1 == k') = d.find? (fun p => p.1 == k') := by
  have hkk' : (k == k') = false := by
    rw [beq_eq_false_iff_ne] at h ⊢
    exact fun hq => h hq.symm
  intro d
  induction d with
  | nil =>
    rw [List.nil_append, List.find?_cons]
    simp only [hkk']
  | cons p rest ih =>
    rw [List.cons_append, List.find?_cons, List.find?_cons]
    cases hq : (p.1 == k') with
    | true => simp only [hq]
    | false => simp only [hq]; exact ih

/-- Lookup after a Python dict assignment at a different key. -/
theorem dictGet_insert_ne {α : Type} (d : List (String × α)) (k k' : String) (v : α)
    (h : (k' == k) = false) :
    dictGet (dictInsert d k v) k' = dictGet d k' := by
  unfold dictInsert dictGet
  split
  · rw [find_map_ne k k' v h]
  · rw [find_append_ne k k' v h]

/-- A fold of dict assignments leaves foreign keys untouched. -/
theorem foldl_dictInsert_get_of_notmem {α β : Type} (keyf : β → String) (valf : β → α) :
    ∀ (ps : List β) (d : List (String × α)) (k : String),
      (∀ q ∈ ps, (k == keyf q) = false) →
      dictGet (ps.foldl (fun d q => dictInsert d (keyf q) (valf q)) d) k = dictGet d k := by
  intro ps
  induction ps with
  | nil => intro d k _; rfl
  | cons q rest ih =>
    intro d k hk
    rw [List.foldl_cons, ih _ _ (fun q' hq' => hk q' (List.mem_cons_of_mem _ hq')),
      dictGet_insert_ne _ _ _ _ (hk q (List.mem_cons_self _ _))]

/-- A fold of dict assignments with pairwise-distinct keys: looking up the key
of any assigned entry returns that entry's value. -/
theorem foldl_dictInsert_get {α β : Type} (keyf : β → String) (valf : β → α) :
    ∀ (ps : List β) (d : List (String × α)) (x : β),
      x ∈ ps → (ps.map keyf).Nodup →
      dictGet (ps.foldl (fun d q => dictInsert d (keyf q) (valf q)) d) (keyf x) =
        some (valf x) := by
  intro ps
  induction ps with
  | nil => intro d x hx; exact absurd hx (List.not_mem_nil x)
  | cons q rest ih =>
    intro d x hx hnd
    rw [List.map_cons, List.nodup_cons] at hnd
    rcases List.mem_cons.mp hx with hx | hx
    · subst hx
      rw [List.foldl_cons]
      rw [foldl_dictInsert_get_of_notmem keyf valf rest _ (keyf x) ?_,
        dictGet_insert_self]
      intro q' hq'
      rw [beq_eq_false_iff_ne]
      intro hq
      exact hnd.1 (hq ▸ List.mem_map_of_mem keyf hq')
    · rw [List.foldl_cons]
      exact ih _ x hx hnd.2

theorem chapter_key_ne_appendix_a (s : String) :
    (("chapter-" ++ s) == "appendix-a") = false := by
  rw [beq_eq_false_iff_ne]
  intro hEq
  have hd := congrArg String.data hEq
  rw [string_data_append] at hd
  have h1 : "chapter-".data = ['c', 'h', 'a', 'p', 't', 'e', 'r', '-'] := rfl
  have h2 : "appendix-a".data = ['a', 'p', 'p', 'e', 'n', 'd', 'i', 'x', '-', 'a'] := rfl
  rw [h1, h2] at hd
  simp at hd

theorem chapter_key_ne_appendix_b (s : String) :
    (("chapter-" ++ s) == "appendix-b") = false := by
  rw [beq_eq_false_iff_ne]
  intro hEq
  have hd := congrArg String.data hEq
  rw [string_data_append] at hd
  have h1 : "chapter-".data = ['c', 'h', 'a', 'p', 't', 'e', 'r', '-'] := rfl
  have h2 : "appendix-b".data = ['a', 'p', 'p', 'e', 'n', 'd', 'i', 'x', '-', 'b'] := rfl
  rw [h1, h2] at hd
  simp at hd

/-- Looking up a chapter key in the final sections dict reduces to looking it
up right after the chapter loop: the appendix assignments touch only the
`appendix-a`/`appendix-b` keys. -/
theorem dictGet_split_chapter (elements : List Element) (s : String) :
    dictGet (split_into_sections elements) ("chapter-" ++ s) =
      dictGet (chapterLoop elements (headingIndices elements)
        (chapterStartsOf (headingIndices elements))
        (dictInsert [] "preface"
          (pySlice elements (elemIndexGetD (elemIndices elements) 77)
            (elemIndexGetD (elemIndices elements) 92))))
        ("chapter-" ++ s) := by
  unfold split_into_sections
  dsimp only
  split
  · rw [dictGet_insert_ne _ _ _ _ (chapter_key_ne_appendix_b s)]
    split
    · rw [dictGet_insert_ne _ _ _ _ (chapter_key_ne_appendix_a s)]
    · split
      · rw [dictGet_insert_ne _ _ _ _ (chapter_key_ne_appendix_a s)]
      · rfl
  · split
    · rw [dictGet_insert_ne _ _ _ _ (chapter_key_ne_appendix_a s)]
    · split
      · rw [dictGet_insert_ne _ _ _ _ (chapter_key_ne_appendix_a s)]
      · rfl

/-- The end-boundary scan, rephrased: the first matching heading (if any)
sits at `nextEi - 1`, so the scan returns `nextEi - 1` exactly when some
heading entry matches, and `nextEi` otherwise. -/
theorem chapterEndEi_eq (hs : List (Nat × Nat × String)) (nextEi : Nat) :
    chapterEndEi hs nextEi =
      if hs.any (fun q => q.2.1 + 1 == nextEi && pyStartsWith (pyStrip q.2.2) "PART")
      then nextEi - 1 else nextEi := by
  unfold chapterEndEi
  cases hf : hs.find?
      (fun q => q.2.1 + 1 == nextEi && pyStartsWith (pyStrip q.2.2) "PART") with
  | none =>
    have hany : hs.any
        (fun q => q.2.1 + 1 == nextEi && pyStartsWith (pyStrip q.2.2) "PART") = false := by
      rw [List.any_eq_false]
      intro x hx
      have := List.find?_eq_none.mp hf x hx
      simpa using this
    rw [hany]
    simp
  | some hh =>
    have hp := List.find?_some hf
    have hmem := List.mem_of_find?_eq_some hf
    have hany : hs.any
        (fun q => q.2.1 + 1 == nextEi && pyStartsWith (pyStrip q.2.2) "PART") = true :=
      List.any_eq_true.mpr ⟨hh, hmem, hp⟩
    rw [hany]
    simp only [if_true]
    rw [Bool.and_eq_true] at hp
    have : hh.2.1 + 1 = nextEi := by simpa using hp.1
    omega

/-! ### C5: chapter end boundary backs up to an adjacent PART heading -/

/-- The value the sections dict holds for the chapter starting at position
`idx` of `chapter_starts`, when chapter keys are pairwise distinct. -/
theorem dictGet_chapter_slice (elements : List Element) (idx ei ch : Nat)
    (h1 : (chapterStarts elements)[idx]? = some (ei, ch))
    (hnd : ((chapterStarts elements).map
      (fun p => "chapter-" ++ toString p.2)).Nodup) :
    dictGet (split_into_sections elements) ("chapter-" ++ toString ch) =
      some (chapterSlice elements (headingIndices elements)
        (chapterStartsOf (headingIndices elements)) idx ei) := by
  rw [dictGet_split_chapter]
  unfold chapterLoop
  have hkeys : ((chapterStarts elements).enum.map
        (fun q => "chapter-" ++ toString q.2.2)) =
      (chapterStarts elements).map (fun p => "chapter-" ++ toString p.2) := by
    rw [show (fun q : Nat × Nat × Nat => "chapter-" ++ toString q.2.2) =
      ((fun p : Nat × Nat => "chapter-" ++ toString p.2) ∘ Prod.snd) from rfl]
    rw [← List.map_map, List.enum_map_snd]
  have hmem : (idx, (ei, ch)) ∈ (chapterStarts elements).enum := by
    have := List.getElem?_enum (chapterStarts elements) idx
    rw [h1] at this
    exact List.getElem?_mem this
  have := foldl_dictInsert_get
    (fun q : Nat × Nat × Nat => "chapter-" ++ toString q.2.2)
    (fun q => chapterSlice elements (headingIndices elements)
      (chapterStartsOf (headingIndices elements)) q.1 q.2.1)
    (chapterStarts elements).enum
    (dictInsert [] "preface"
      (pySlice elements (elemIndexGetD (elemIndices elements) 77)
        (elemIndexGetD (elemIndices elements) 92)))
    (idx, (ei, ch)) hmem (by rw [hkeys]; exact hnd)
  exact this

/-- C5.  For consecutive chapter starts `(ei, ch)` and `(nei, nch)` (with
chapter keys pairwise distinct so dict lookups are unambiguous), the stored
range of chapter `ch` is `elements[ei:end]` where `end` is `nei - 1` when a
heading whose stripped text starts with `"PART"` occupies the element slot
directly before `nei`, and `nei` otherwise. -/
theorem chapter_end_boundary (elements : List Element) (idx ei ch nei nch : Nat)
    (h1 : (chapterStarts elements)[idx]? = some (ei, ch))
    (h2 : (chapterStarts elements)[idx + 1]? = some (nei, nch))
    (hnd : ((chapterStarts elements).map
      (fun p => "chapter-" ++ toString p.2)).Nodup) :
    dictGet (split_into_sections elements) ("chapter-" ++ toString ch) =
      some (pySlice elements ei
        (if (headingIndices elements).any
            (fun q => q.2.1 + 1 == nei && pyStartsWith (pyStrip q.2.2) "PART")
          then nei - 1 else nei)) := by
  rw [dictGet_chapter_slice elements idx ei ch h1 hnd]
  congr 1
  unfold chapterSlice
  dsimp only
  have hlt : idx + 1 < (chapterStartsOf (headingIndices elements)).length := by
    have := (List.getElem?_eq_some.mp h2).1
    exact this
  rw [if_pos hlt]
  have h2' : (chapterStartsOf (headingIndices elements))[idx + 1]? = some (nei, nch) := h2
  have hget : (chapterStartsOf (headingIndices elements)).getD (idx + 1) (0, 0) =
      (nei, nch) := by
    rw [List.getD_eq_getElem?_getD, h2']
    rfl
  rw [hget]
  exact congrArg (pySlice elements ei) (chapterEndEi_eq _ _)

/-- A one-run paragraph element, used by the concrete example documents. -/
def mkPara (style text : String) : Element :=
  .para ⟨style, [Xml.mk (wtag "r") none none [Xml.mk (wtag "t") none (some text) []]]⟩

/-- Example document: two chapters with a `PART` heading directly before the
second chapter heading. -/
def exC5 : List Element :=
  [mkPara "Heading 1" "Chapter 0", mkPara "Normal" "body",
   mkPara "Heading 1" "PART II", mkPara "Heading 1" "Chapter 1",
   mkPara "Normal" "b2"]

/-- C5 witness: chapter 0's range ends at the `PART II` heading sitting in
the slot directly before chapter 1's heading. -/
theorem chapter_end_boundary_witness :
    (chapterStarts exC5)[0]? = some (0, 0) ∧
    (chapterStarts exC5)[1]? = some (3, 1) ∧
    ((chapterStarts exC5).map (fun p => "chapter-" ++ toString p.2)).Nodup ∧
    dictGet (split_into_sections exC5) ("chapter-" ++ toString 0) =
      some (pySlice exC5 0
        (if (headingIndices exC5).any
            (fun q => q.2.1 + 1 == 3 && pyStartsWith (pyStrip q.2.2) "PART")
          then 3 - 1 else 3)) :=
  ⟨rfl, rfl, by decide,
    chapter_end_boundary exC5 0 0 0 3 1 rfl rfl (by decide)⟩

/-! ### C6: final chapter end boundary at the APPENDIX A marker -/

/-- Example document: the `APPENDIX A` marker paragraph sits at element
index 0, before the single chapter heading. -/
def exC6 : List Element :=
  [mkPara "Normal" "APPENDIX A", mkPara "Heading 1" "Chapter 0",
   mkPara "Normal" "body"]

/-- C6 counterexample.  The claim says the final chapter's range ends at
the `APPENDIX A` paragraph "at any index, including index 0".  The code
tests the found index with `if app_a_ei:`, and the integer `0` is falsy in
Python, so a marker at element index 0 is ignored: chapter 0's range is the
whole tail `elements[1:]` instead of the empty `elements[1:0]` the claim
mandates. -/
theorem final_chapter_ignores_marker_at_zero :
    firstMarkerIdx exC6 "APPENDIX A" = some 0 ∧
    dictGet (split_into_sections exC6) "chapter-0" = some (exC6.drop 1) ∧
    exC6.drop 1 ≠ pySlice exC6 1 0 := by
  refine ⟨rfl, rfl, ?_⟩
  intro h
  exact absurd (congrArg List.length h) (by decide)

/-- C6 (amended).  The final chapter's range ends at the first `APPENDIX A`
paragraph whenever one exists at a POSITIVE element index; when no such
paragraph exists — or when the first one sits at index 0, which Python's
`if app_a_ei:` treats as absent — the range extends to the end of the
sequence. -/
theorem final_chapter_end_boundary (elements : List Element) (idx ei ch : Nat)
    (h1 : (chapterStarts elements)[idx]? = some (ei, ch))
    (hlast : idx + 1 = (chapterStarts elements).length)
    (hnd : ((chapterStarts elements).map
      (fun p => "chapter-" ++ toString p.2)).Nodup) :
    (∀ j, firstMarkerIdx elements "APPENDIX A" = some j → 0 < j →
      dictGet (split_into_sections elements) ("chapter-" ++ toString ch) =
        some (pySlice elements ei j)) ∧
    ((firstMarkerIdx elements "APPENDIX A" = none ∨
        firstMarkerIdx elements "APPENDIX A" = some 0) →
      dictGet (split_into_sections elements) ("chapter-" ++ toString ch) =
        some (elements.drop ei)) := by
  have hnlt : ¬(idx + 1 < (chapterStartsOf (headingIndices elements)).length) := by
    have : (chapterStartsOf (headingIndices elements)).length =
        (chapterStarts elements).length := rfl
    omega
  constructor
  · intro j hj hjpos
    rw [dictGet_chapter_slice elements idx ei ch h1 hnd]
    congr 1
    unfold chapterSlice
    dsimp only
    rw [if_neg hnlt, hj]
    have htr : pyTruthy (some j) = true := by
      simp [pyTruthy]
      omega
    rw [htr]
    simp
  · intro hcase
    rw [dictGet_chapter_slice elements idx ei ch h1 hnd]
    congr 1
    unfold chapterSlice
    dsimp only
    rw [if_neg hnlt]
    rcases hcase with hc | hc <;> rw [hc] <;> simp [pyTruthy]

/-- C6 witness: with the marker at a positive index the final chapter's
range ends there (document `exC5` extended with an `APPENDIX A` marker). -/
theorem final_chapter_end_boundary_witness :
    (chapterStarts (exC5 ++ [mkPara "Normal" "APPENDIX A"]))[1]? = some (3, 1) ∧
    1 + 1 = (chapterStarts (exC5 ++ [mkPara "Normal" "APPENDIX A"])).length ∧
    firstMarkerIdx (exC5 ++ [mkPara "Normal" "APPENDIX A"]) "APPENDIX A" = some 5 ∧
    dictGet (split_into_sections (exC5 ++ [mkPara "Normal" "APPENDIX A"]))
      ("chapter-" ++ toString 1) =
      some (pySlice (exC5 ++ [mkPara "Normal" "APPENDIX A"]) 3 5) :=
  ⟨rfl, rfl, rfl,
    (final_chapter_end_boundary (exC5 ++ [mkPara "Normal" "APPENDIX A"]) 1 3 1
      rfl rfl (by decide)).1 5 rfl (by decide)⟩

/-! ### C3: the chapter ranges partition the chapter span -/

/-- Every entry of the heading scan points at a Heading-styled paragraph of
the element list (at its recorded element index), carrying that paragraph's
text. -/
theorem headingIndicesGo_mem :
    ∀ (l : List Element) (pidx e : Nat) (x : Nat × Nat × String),
      x ∈ headingIndicesGo l pidx e →
      e ≤ x.2.1 ∧ ∃ p, l[x.2.1 - e]? = some (.para p) ∧
        pyStartsWith p.styleName "Heading" = true ∧ paraText p = x.2.2 := by
  intro l
  induction l with
  | nil => intro pidx e x hx; simp [headingIndicesGo] at hx
  | cons el rest ih =>
    intro pidx e x hx
    cases el with
    | para p =>
      by_cases hsty : pyStartsWith p.styleName "Heading" = true
      · rw [headingIndicesGo, if_pos hsty] at hx
        rcases List.mem_cons.mp hx with hx | hx
        · subst hx
          refine ⟨Nat.le_refl e, p, ?_, hsty, rfl⟩
          simp
        · obtain ⟨hle, p', hp', hsty', htxt⟩ := ih (pidx + 1) (e + 1) x hx
          refine ⟨by omega, p', ?_, hsty', htxt⟩
          have heq : x.2.1 - e = (x.2.1 - (e + 1)) + 1 := by omega
          rw [heq, List.getElem?_cons_succ]
          exact hp'
      · rw [headingIndicesGo, if_neg hsty] at hx
        obtain ⟨hle, p', hp', hsty', htxt⟩ := ih (pidx + 1) (e + 1) x hx
        refine ⟨by omega, p', ?_, hsty', htxt⟩
        have heq : x.2.1 - e = (x.2.1 - (e + 1)) + 1 := by omega
        rw [heq, List.getElem?_cons_succ]
        exact hp'
    | table t =>
      rw [headingIndicesGo] at hx
      obtain ⟨hle, p', hp', hsty', htxt⟩ := ih pidx (e + 1) x hx
      refine ⟨by omega, p', ?_, hsty', htxt⟩
      have heq : x.2.1 - e = (x.2.1 - (e + 1)) + 1 := by omega
      rw [heq, List.getElem?_cons_succ]
      exact hp'

theorem headingIndices_mem (elements : List Element) (x : Nat × Nat × String)
    (hx : x ∈ headingIndices elements) :
    ∃ p, elements[x.2.1]? = some (.para p) ∧
      pyStartsWith p.styleName "Heading" = true ∧ paraText p = x.2.2 := by
  obtain ⟨_, p, hp, hsty, htxt⟩ := headingIndicesGo_mem elements 0 0 x hx
  exact ⟨p, by simpa using hp, hsty, htxt⟩

/-- The recorded element indices of the heading scan are strictly
increasing. -/
theorem headingIndicesGo_pairwise :
    ∀ (l : List Element) (pidx e : Nat),
      (headingIndicesGo l pidx e).Pairwise (fun a b => a.2.1 < b.2.1) := by
  intro l
  induction l with
  | nil => intro pidx e; simp [headingIndicesGo]
  | cons el rest ih =>
    intro pidx e
    cases el with
    | para p =>
      by_cases hsty : pyStartsWith p.styleName "Heading" = true
      · rw [headingIndicesGo, if_pos hsty]
        refine List.Pairwise.cons ?_ (ih (pidx + 1) (e + 1))
        intro y hy
        have := (headingIndicesGo_mem rest (pidx + 1) (e + 1) y hy).1
        simpa using by omega
      · rw [headingIndicesGo, if_neg hsty]
        exact ih (pidx + 1) (e + 1)
    | table t =>
      rw [headingIndicesGo]
      exact ih pidx (e + 1)

theorem headingIndices_pairwise (elements : List Element) :
    (headingIndices elements).Pairwise (fun a b => a.2.1 < b.2.1) :=
  headingIndicesGo_pairwise elements 0 0

/-- Every chapter start comes from a heading entry at its element index
whose stripped text is not `PART`-prefixed and matches `Chapter <n>`. -/
theorem chapterStartsOf_mem (hs : List (Nat × Nat × String)) (x : Nat × Nat)
    (hx : x ∈ chapterStartsOf hs) :
    ∃ q ∈ hs, q.2.1 = x.1 ∧ pyStartsWith (pyStrip q.2.2) "PART" = false ∧
      matchChapterNum (pyStrip q.2.2) = some x.2 := by
  unfold chapterStartsOf at hx
  rcases List.mem_filterMap.mp hx with ⟨q, hq, hfq⟩
  dsimp only at hfq
  by_cases hpart : pyStartsWith (pyStrip q.2.2) "PART" = true
  · rw [if_pos hpart] at hfq
    exact absurd hfq (by simp)
  · rw [if_neg hpart] at hfq
    cases hm : matchChapterNum (pyStrip q.2.2) with
    | none => rw [hm] at hfq; exact absurd hfq (by simp)
    | some n =>
      rw [hm] at hfq
      have hxn : (q.2.1, n) = x := by simpa using hfq
      refine ⟨q, hq, ?_, by simpa using hpart, ?_⟩
      · rw [← hxn]
      · rw [hm, ← hxn]

/-- The chapter-start element indices are strictly increasing. -/
theorem chapterStarts_pairwise (elements : List Element) :
    (chapterStarts elements).Pairwise (fun a b => a.1 < b.1) := by
  unfold chapterStarts chapterStartsOf
  refine List.Pairwise.filterMap _ ?_ (headingIndices_pairwise elements)
  intro a b hab x hx y hy
  dsimp only at hx hy
  have hxa : x.1 = a.2.1 := by
    by_cases hp : pyStartsWith (pyStrip a.2.2) "PART" = true
    · rw [if_pos hp] at hx; exact absurd hx (by simp)
    · rw [if_neg hp] at hx
      cases hm : matchChapterNum (pyStrip a.2.2) with
      | none => rw [hm] at hx; exact absurd hx (by simp)
      | some n => rw [hm] at hx; have := Option.some.inj hx; rw [← this]
  have hyb : y.1 = b.2.1 := by
    by_cases hp : pyStartsWith (pyStrip b.2.2) "PART" = true
    · rw [if_pos hp] at hy; exact absurd hy (by simp)
    · rw [if_neg hp] at hy
      cases hm : matchChapterNum (pyStrip b.2.2) with
      | none => rw [hm] at hy; exact absurd hy (by simp)
      | some n => rw [hm] at hy; have := Option.some.inj hy; rw [← this]
  rw [hxa, hyb]
  exact hab

/-- Strictly increasing recorded indices make the heading entry at a given
element index unique. -/
theorem pairwise_index_unique (hs : List (Nat × Nat × String))
    (hpw : hs.Pairwise (fun a b => a.2.1 < b.2.1)) :
    ∀ a ∈ hs, ∀ b ∈ hs, a.2.1 = b.2.1 → a = b := by
  induction hs with
  | nil => intro a ha; exact absurd ha (List.not_mem_nil a)
  | cons h t ih =>
    rw [List.pairwise_cons] at hpw
    intro a ha b hb heq
    rcases List.mem_cons.mp ha with ha1 | ha1 <;>
      rcases List.mem_cons.mp hb with hb1 | hb1
    · rw [ha1, hb1]
    · exfalso
      have := hpw.1 b hb1
      rw [ha1] at heq
      omega
    · exfalso
      have := hpw.1 a ha1
      rw [hb1] at heq
      omega
    · exact ih hpw.2 a ha1 b hb1 heq

/-- Head of a non-trivial Python slice. -/
theorem pySlice_head? {α : Type} (l : List α) (a b : Nat) (h : a < b) :
    (pySlice l a b).head? = l[a]? := by
  unfold pySlice
  have hk : b - a = (b - a - 1) + 1 := by omega
  rw [hk]
  have hd := List.head?_drop l a
  rw [← hd]
  cases l.drop a with
  | nil => rfl
  | cons y ys => rfl

/-- C3 (amended).  For consecutive chapter starts `(ei, ch)` and
`(nei, nch)` (chapter keys pairwise distinct), chapter `ch`'s stored range
is `elements[ei:endEi]` with `ei < endEi ≤ nei`, so the ranges appear in
reading order and are disjoint; the range is flush with the next chapter's
start (`endEi = nei`) except when a `PART` heading paragraph occupies the
slot directly before the next chapter heading, in which case exactly that
one element is excluded from the union (`endEi + 1 = nei`); and the first
element of the range is a Heading-styled paragraph whose text matches
`Chapter <ch>`. -/
theorem chapter_partition (elements : List Element) (idx ei ch nei nch : Nat)
    (h1 : (chapterStarts elements)[idx]? = some (ei, ch))
    (h2 : (chapterStarts elements)[idx + 1]? = some (nei, nch))
    (hnd : ((chapterStarts elements).map
      (fun p => "chapter-" ++ toString p.2)).Nodup) :
    ei < chapterEndEi (headingIndices elements) nei ∧
    chapterEndEi (headingIndices elements) nei ≤ nei ∧
    dictGet (split_into_sections elements) ("chapter-" ++ toString ch) =
      some (pySlice elements ei (chapterEndEi (headingIndices elements) nei)) ∧
    (chapterEndEi (headingIndices elements) nei = nei ∨
      (chapterEndEi (headingIndices elements) nei + 1 = nei ∧
        ∃ p, elements[chapterEndEi (headingIndices elements) nei]? =
            some (.para p) ∧
          pyStartsWith p.styleName "Heading" = true ∧
          pyStartsWith (pyStrip (paraText p)) "PART" = true)) ∧
    (∃ p, elements[ei]? = some (.para p) ∧
      pyStartsWith p.styleName "Heading" = true ∧
      matchChapterNum (pyStrip (paraText p)) = some ch ∧
      (pySlice elements ei (chapterEndEi (headingIndices elements) nei)).head? =
        some (.para p)) := by
  obtain ⟨hlt1, hget1⟩ := List.getElem?_eq_some.mp h1
  obtain ⟨hlt2, hget2⟩ := List.getElem?_eq_some.mp h2
  have hpw := chapterStarts_pairwise elements
  rw [List.pairwise_iff_getElem] at hpw
  have heinei : ei < nei := by
    have := hpw idx (idx + 1) hlt1 hlt2 (by omega)
    rw [hget1, hget2] at this
    exact this
  have hx1mem : (ei, ch) ∈ chapterStarts elements := List.getElem?_mem h1
  obtain ⟨qc, hqc_mem, hqc_ei, hqc_part, hqc_match⟩ :=
    chapterStartsOf_mem _ _ hx1mem
  have hqc_ei' : qc.2.1 = ei := hqc_ei
  -- characterize the end boundary
  have hEnd : chapterEndEi (headingIndices elements) nei = nei ∨
      (chapterEndEi (headingIndices elements) nei = nei - 1 ∧ ei + 1 < nei ∧
        ∃ q ∈ headingIndices elements, q.2.1 = nei - 1 ∧
          pyStartsWith (pyStrip q.2.2) "PART" = true) := by
    rw [chapterEndEi_eq]
    cases hany : (headingIndices elements).any
        (fun q => q.2.1 + 1 == nei && pyStartsWith (pyStrip q.2.2) "PART") with
    | false => left; simp
    | true =>
      right
      obtain ⟨q, hqmem, hqp⟩ := List.any_eq_true.mp hany
      rw [Bool.and_eq_true] at hqp
      have hq1 : q.2.1 + 1 = nei := by simpa using hqp.1
      have hne_q : q.2.1 ≠ ei := by
        intro hq_ei
        have hqqc : q = qc :=
          pairwise_index_unique (headingIndices elements)
            (headingIndices_pairwise elements) q hqmem qc hqc_mem
            (by rw [hq_ei, hqc_ei'])
        rw [hqqc] at hqp
        rw [hqc_part] at hqp
        exact Bool.false_ne_true hqp.2
      refine ⟨by simp, by omega, q, hqmem, by omega, hqp.2⟩
  have hdict : dictGet (split_into_sections elements) ("chapter-" ++ toString ch) =
      some (pySlice elements ei (chapterEndEi (headingIndices elements) nei)) := by
    rw [dictGet_chapter_slice elements idx ei ch h1 hnd]
    congr 1
    unfold chapterSlice
    dsimp only
    have hlen : idx + 1 < (chapterStartsOf (headingIndices elements)).length := hlt2
    rw [if_pos hlen]
    have h2' : (chapterStartsOf (headingIndices elements))[idx + 1]? =
        some (nei, nch) := h2
    have hget : (chapterStartsOf (headingIndices elements)).getD (idx + 1) (0, 0) =
        (nei, nch) := by
      rw [List.getD_eq_getElem?_getD, h2']
      rfl
    rw [hget]
  have heiend : ei < chapterEndEi (headingIndices elements) nei := by
    rcases hEnd with hE | ⟨hE, hlt, _⟩ <;> omega
  have hendle : chapterEndEi (headingIndices elements) nei ≤ nei := by
    rcases hEnd with hE | ⟨hE, _, _⟩ <;> omega
  refine ⟨heiend, hendle, hdict, ?_, ?_⟩
  · rcases hEnd with hE | ⟨hE, hlt, q, hqmem, hq_at, hq_part⟩
    · exact Or.inl hE
    · right
      refine ⟨by omega, ?_⟩
      obtain ⟨p, hp, hsty, htxt⟩ := headingIndices_mem elements q hqmem
      rw [hq_at] at hp
      rw [← hE] at hp
      exact ⟨p, hp, hsty, by rw [htxt]; exact hq_part⟩
  · obtain ⟨p, hp, hsty, htxt⟩ := headingIndices_mem elements qc hqc_mem
    rw [hqc_ei'] at hp
    refine ⟨p, hp, hsty, ?_, ?_⟩
    · rw [htxt]
      exact hqc_match
    · rw [pySlice_head? elements ei _ heiend]
      exact hp

/-- Example document with chapters 0..14 and a `PART` heading directly
before chapter 1's heading (element index 1). -/
def exC3 : List Element :=
  [mkPara "Heading 1" "Chapter 0", mkPara "Heading 1" "PART II"] ++
    (List.range 14).map (fun i => mkPara "Heading 1" ("Chapter " ++ toString (i + 1)))

/-- C3 counterexample.  All fifteen chapter ranges exist, but their ordered
union does not equal the full chapter span of the document: the `PART`
heading element (index 1) belongs to no chapter range, so the concatenation
of the ranges for chapters 0..14 has 15 elements while the chapter span has
16 — the partition has a gap. -/
theorem chapter_ranges_gap_at_part :
    ((List.range 15).all (fun n =>
      (dictGet (split_into_sections exC3) ("chapter-" ++ toString n)).isSome)) = true ∧
    ((List.range 15).foldr (fun n acc =>
        ((dictGet (split_into_sections exC3) ("chapter-" ++ toString n)).getD []) ++ acc)
      []) ≠ pySlice exC3 0 exC3.length := by
  refine ⟨rfl, ?_⟩
  intro h
  exact absurd (congrArg List.length h) (by decide)

/-- C3 witness: the amended partition statement at the concrete two-chapter
document `exC5` (chapter 0 spans `[0, 2)`, the `PART` heading at element 2
is skipped, chapter 1 starts at element 3). -/
theorem chapter_partition_witness :
    0 < chapterEndEi (headingIndices exC5) 3 ∧
    chapterEndEi (headingIndices exC5) 3 ≤ 3 ∧
    dictGet (split_into_sections exC5) ("chapter-" ++ toString 0) =
      some (pySlice exC5 0 (chapterEndEi (headingIndices exC5) 3)) ∧
    (chapterEndEi (headingIndices exC5) 3 = 3 ∨
      (chapterEndEi (headingIndices exC5) 3 + 1 = 3 ∧
        ∃ p, exC5[chapterEndEi (headingIndices exC5) 3]? = some (.para p) ∧
          pyStartsWith p.styleName "Heading" = true ∧
          pyStartsWith (pyStrip (paraText p)) "PART" = true)) ∧
    (∃ p, exC5[0]? = some (.para p) ∧
      pyStartsWith p.styleName "Heading" = true ∧
      matchChapterNum (pyStrip (paraText p)) = some 0 ∧
      (pySlice exC5 0 (chapterEndEi (headingIndices exC5) 3)).head? =
        some (.para p)) :=
  chapter_partition exC5 0 0 0 3 1 rfl rfl (by decide)

/-! ### C7: n-ary operator hide flags -/

/-- C7.  For every `nary` node whose scanned `subHide` flag is set, the
translation is the operator command, then the superscript part only when a
`sup` child produced a non-empty translation and `supHide` is unset, then a
single space and the translated body — no subscript is ever emitted, even
when a `sub` child is present.  When `supHide` is also set the translation
is exactly the operator command, a single space, and the body. -/
theorem nary_subHide_suppresses_subscript (e : Xml)
    (hTag : localName e.tag = "nary")
    (hSubHide : (naryProps e.children).2.2 = true) :
    (ommlToLatex e =
      ((if !(lastTag (ommlChildren e.children) "sup").isEmpty &&
            !(naryProps e.children).2.1 then
          (naryMap (naryProps e.children).1).getD "\\sum" ++ "^\x7b" ++
            lastTag (ommlChildren e.children) "sup" ++ "\x7d"
        else (naryMap (naryProps e.children).1).getD "\\sum") ++ " " ++
        lastTag (ommlChildren e.children) "e")) ∧
    ((naryProps e.children).2.1 = true →
      ommlToLatex e =
        (naryMap (naryProps e.children).1).getD "\\sum" ++ " " ++
          lastTag (ommlChildren e.children) "e") := by
  obtain ⟨tag, v, tx, children⟩ := e
  simp only [Xml.tag] at hTag
  simp only [Xml.children] at hSubHide ⊢
  unfold ommlToLatex
  rw [hTag]
  constructor
  · simp [hSubHide]
  · intro hSupHide
    simp [hSubHide, hSupHide]

/-- C7 witness: a concrete `∫`-operator node with a `sub` child present,
`subHide` set and `supHide` unset translates with no subscript; resetting
both flags on a sibling example yields exactly `\sum` + space + body. -/
theorem nary_subHide_suppresses_subscript_witness :
    localName (Xml.mk (mtag "nary") none none
      [Xml.mk (mtag "naryPr") none none
        [Xml.mk (mtag "chr") (some "∫") none [],
         Xml.mk (mtag "subHide") (some "1") none []],
       Xml.mk (mtag "sub") none none [Xml.mk (mtag "r") none none
         [Xml.mk (mtag "t") none (some "a") []]],
       Xml.mk (mtag "sup") none none [Xml.mk (mtag "r") none none
         [Xml.mk (mtag "t") none (some "b") []]],
       Xml.mk (mtag "e") none none [Xml.mk (mtag "r") none none
         [Xml.mk (mtag "t") none (some "f") []]]]).tag = "nary" ∧
    (naryProps (Xml.mk (mtag "nary") none none
      [Xml.mk (mtag "naryPr") none none
        [Xml.mk (mtag "chr") (some "∫") none [],
         Xml.mk (mtag "subHide") (some "1") none []],
       Xml.mk (mtag "sub") none none [Xml.mk (mtag "r") none none
         [Xml.mk (mtag "t") none (some "a") []]],
       Xml.mk (mtag "sup") none none [Xml.mk (mtag "r") none none
         [Xml.mk (mtag "t") none (some "b") []]],
       Xml.mk (mtag "e") none none [Xml.mk (mtag "r") none none
         [Xml.mk (mtag "t") none (some "f") []]]]).children).2.2 = true ∧
    ommlToLatex (Xml.mk (mtag "nary") none none
      [Xml.mk (mtag "naryPr") none none
        [Xml.mk (mtag "chr") (some "∫") none [],
         Xml.mk (mtag "subHide") (some "1") none []],
       Xml.mk (mtag "sub") none none [Xml.mk (mtag "r") none none
         [Xml.mk (mtag "t") none (some "a") []]],
       Xml.mk (mtag "sup") none none [Xml.mk (mtag "r") none none
         [Xml.mk (mtag "t") none (some "b") []]],
       Xml.mk (mtag "e") none none [Xml.mk (mtag "r") none none
         [Xml.mk (mtag "t") none (some "f") []]]]) = "\\int^\x7bb\x7d f" := by
  refine ⟨rfl, rfl, ?_⟩
  have h := (nary_subHide_suppresses_subscript (Xml.mk (mtag "nary") none none
      [Xml.mk (mtag "naryPr") none none
        [Xml.mk (mtag "chr") (some "∫") none [],
         Xml.mk (mtag "subHide") (some "1") none []],
       Xml.mk (mtag "sub") none none [Xml.mk (mtag "r") none none
         [Xml.mk (mtag "t") none (some "a") []]],
       Xml.mk (mtag "sup") none none [Xml.mk (mtag "r") none none
         [Xml.mk (mtag "t") none (some "b") []]],
       Xml.mk (mtag "e") none none [Xml.mk (mtag "r") none none
         [Xml.mk (mtag "t") none (some "f") []]]]) rfl rfl).1
  rw [h]
  rfl

/-! ### C9: unrecognized node kinds fall back to recursion -/

/-- C9.  For every node whose local tag is not one of the recognized kinds,
`omml_to_latex` recursively translates all children and joins the results
with `_join_latex_parts` — the forward-compatibility fallback.  (The
translator is a total function over the `Xml` tree by construction, so no
node kind can make it fail.) -/
theorem unrecognized_tag_falls_back (e : Xml)
    (h : recognizedTags.contains (localName e.tag) = false) :
    ommlToLatex e = joinLatexParts ((ommlChildren e.children).map Prod.snd) := by
  obtain ⟨tag, v, tx, children⟩ := e
  simp only [Xml.tag] at h
  simp only [Xml.children]
  have hne : ∀ s', s' ∈ recognizedTags → (localName tag == s') = false := by
    intro s' hs'
    cases hb : (localName tag == s') with
    | false => rfl
    | true =>
      exfalso
      have heq : localName tag = s' := eq_of_beq hb
      rw [heq] at h
      have : recognizedTags.contains s' = true := List.elem_eq_true_of_mem hs'
      rw [this] at h
      exact Bool.true_eq_false.mp h
  have hcont : ∀ (l : List String), (∀ x ∈ l, x ∈ recognizedTags) →
      l.contains (localName tag) = false := by
    intro l hsub
    cases hb : l.contains (localName tag) with
    | false => rfl
    | true =>
      exfalso
      have hmem : localName tag ∈ l := List.mem_of_elem_eq_true hb
      have : recognizedTags.contains (localName tag) = true :=
        List.elem_eq_true_of_mem (hsub _ hmem)
      rw [this] at h
      exact Bool.true_eq_false.mp h
  unfold ommlToLatex
  dsimp only
  rw [hne "oMathPara" (by decide), hne "oMath" (by decide), hne "r" (by decide),
    hne "sSub" (by decide), hne "sSup" (by decide), hne "sSubSup" (by decide),
    hne "d" (by decide), hne "f" (by decide), hne "nary" (by decide),
    hne "acc" (by decide), hne "rad" (by decide), hne "limUpp" (by decide),
    hne "limLow" (by decide), hne "func" (by decide), hne "eqArr" (by decide),
    hne "groupChr" (by decide), hne "m" (by decide), hne "box" (by decide),
    hcont containerTags (by decide), hcont propertyTags (by decide)]
  simp

/-- C9 witness: a node with the unknown tag `future` translates by joining
its children's translations. -/
theorem unrecognized_tag_falls_back_witness :
    recognizedTags.contains (localName (mtag "future")) = false ∧
    ommlToLatex (Xml.mk (mtag "future") none none
      [Xml.mk (mtag "r") none none [Xml.mk (mtag "t") none (some "α") []],
       Xml.mk (mtag "r") none none [Xml.mk (mtag "t") none (some "x") []]]) =
      joinLatexParts ((ommlChildren
        [Xml.mk (mtag "r") none none [Xml.mk (mtag "t") none (some "α") []],
         Xml.mk (mtag "r") none none [Xml.mk (mtag "t") none (some "x") []]]).map
          Prod.snd) :=
  ⟨rfl,
    unrecognized_tag_falls_back (Xml.mk (mtag "future") none none
      [Xml.mk (mtag "r") none none [Xml.mk (mtag "t") none (some "α") []],
       Xml.mk (mtag "r") none none [Xml.mk (mtag "t") none (some "x") []]]) rfl⟩

/-! ### C8: skip-count elision -/

/-- Removal of the first `k` paragraphs with content (tables and content-less
paragraphs are kept): the specification-side description of what
`skip_count` elides. -/
def dropContentParas : Nat → List Element → List Element
  | 0, l => l
  | _ + 1, [] => []
  | k + 1, .para p :: rest =>
    if paraHasContent p then dropContentParas k rest
    else .para p :: dropContentParas (k + 1) rest
  | k + 1, .table t :: rest => .table t :: dropContentParas (k + 1) rest

theorem dropContentParas_zero (l : List Element) : dropContentParas 0 l = l := by
  cases l with
  | nil => rfl
  | cons el rest => cases el <;> rfl

theorem sectionGo_contentless (k : Nat) (p : Paragraph) (rest : List Element)
    (s : Nat) (parts : List String) (hm : Bool)
    (hc : paraHasContent p = false) :
    sectionGo k (.para p :: rest) s parts hm = sectionGo k rest s parts hm := by
  simp only [sectionGo]
  simp [hc]

/-- The skip loop with `skipped = s` behaves like a fresh loop on the list
with the first `k - s` content paragraphs removed. -/
theorem sectionGo_skip (k : Nat) :
    ∀ (elems : List Element) (s : Nat) (parts : List String) (hm : Bool),
      s ≤ k →
      sectionGo k elems s parts hm =
        sectionGo 0 (dropContentParas (k - s) elems) 0 parts hm := by
  intro elems
  induction elems with
  | nil =>
    intro s parts hm _
    cases hks : k - s <;> rfl
  | cons el rest ih =>
    intro s parts hm hs
    cases el with
    | table t =>
      cases hks : k - s with
      | zero =>
        simp only [sectionGo, dropContentParas_zero]
        have := ih s (parts ++ [tableToHtml t]) hm hs
        rw [hks, dropContentParas_zero] at this
        exact this
      | succ m =>
        simp only [sectionGo, dropContentParas]
        have := ih s (parts ++ [tableToHtml t]) hm hs
        rw [hks] at this
        exact this
    | para p =>
      cases hc : paraHasContent p with
      | false =>
        rw [sectionGo_contentless k p rest s parts hm hc]
        cases hks : k - s with
        | zero =>
          rw [dropContentParas_zero]
          rw [sectionGo_contentless 0 p rest 0 parts hm hc]
          have := ih s parts hm hs
          rw [hks, dropContentParas_zero] at this
          exact this
        | succ m =>
          rw [show dropContentParas (m + 1) (Element.para p :: rest) =
            if paraHasContent p then dropContentParas m rest
            else Element.para p :: dropContentParas (m + 1) rest from rfl]
          rw [hc]
          simp only [Bool.false_eq_true, if_false]
          rw [sectionGo_contentless 0 p (dropContentParas (m + 1) rest) 0 parts hm hc]
          have := ih s parts hm hs
          rw [hks] at this
          exact this
      | true =>
        by_cases hsk : s < k
        · have hks : k - s = (k - (s + 1)) + 1 := by omega
          rw [hks]
          rw [show dropContentParas ((k - (s + 1)) + 1) (Element.para p :: rest) =
            if paraHasContent p then dropContentParas (k - (s + 1)) rest
            else Element.para p :: dropContentParas ((k - (s + 1)) + 1) rest from rfl]
          rw [hc]
          simp only [if_true]
          have hstep : sectionGo k (Element.para p :: rest) s parts hm =
              sectionGo k rest (s + 1) parts hm := by
            simp only [sectionGo]
            simp [hc, hsk]
          rw [hstep]
          exact ih (s + 1) parts hm (by omega)
        · have hseq : s = k := by omega
          have hks : k - s = 0 := by omega
          rw [hks, dropContentParas_zero]
          have ih0 : ∀ (parts' : List String) (hm' : Bool),
              sectionGo k rest s parts' hm' = sectionGo 0 rest 0 parts' hm' := by
            intro parts' hm'
            have := ih s parts' hm' hs
            rw [hks, dropContentParas_zero] at this
            exact this
          simp only [sectionGo]
          simp only [hc, Bool.not_true, Bool.false_eq_true, if_false]
          have hns1 : ¬ s < k := by omega
          have hns2 : ¬ (0 : Nat) < 0 := by omega
          simp only [if_neg hns1, if_neg hns2]
          split
          · exact ih0 _ _
          · split
            · exact ih0 _ _
            · split
              · exact ih0 _ _
              · split
                · exact ih0 _ _
                · exact ih0 _ _

/-- C8.  Rendering with `skip_count = k` equals rendering the range with its
first `k` content-bearing paragraphs removed and no skip: content-less
paragraphs are passed over without being counted toward the skip, and (the
second conjunct) a paragraph with no visible text and no math is skipped
entirely, contributing nothing to the output for any skip count. -/
theorem section_skip_count_elides_content_paras :
    (∀ (elems : List Element) (k : Nat),
      section_to_html elems k = section_to_html (dropContentParas k elems) 0) ∧
    (∀ (p : Paragraph) (rest : List Element) (k : Nat),
      paraHasContent p = false →
      section_to_html (.para p :: rest) k = section_to_html rest k) := by
  constructor
  · intro elems k
    unfold section_to_html
    have := sectionGo_skip k elems 0 [] false (Nat.zero_le k)
    rw [Nat.sub_zero] at this
    rw [this]
  · intro p rest k hc
    unfold section_to_html
    rw [sectionGo_contentless k p rest 0 [] false hc]

/-- C8 witness: with `skip_count = 2`, a section of one empty paragraph,
one table, and three content paragraphs elides exactly the first two content
paragraphs (the empty paragraph is not counted), and the empty paragraph
contributes nothing. -/
theorem section_skip_count_elides_content_paras_witness :
    section_to_html
        [.para ⟨"Normal", []⟩, mkPara "Normal" "one",
         .table ⟨[["h"]]⟩, mkPara "Normal" "two", mkPara "Normal" "three"] 2 =
      section_to_html
        (dropContentParas 2
          [.para ⟨"Normal", []⟩, mkPara "Normal" "one",
           .table ⟨[["h"]]⟩, mkPara "Normal" "two", mkPara "Normal" "three"]) 0 ∧
    paraHasContent ⟨"Normal", []⟩ = false ∧
    section_to_html [.para ⟨"Normal", []⟩, mkPara "Normal" "x"] 0 =
      section_to_html [mkPara "Normal" "x"] 0 :=
  ⟨section_skip_count_elides_content_paras.1 _ 2, rfl,
    section_skip_count_elides_content_paras.2 ⟨"Normal", []⟩ [mkPara "Normal" "x"] 0 rfl⟩

/-! ### C4: the aggregated math flag -/

/-- The `has_math` component of the loop state does not depend on the
accumulated `html_parts`. -/
theorem sectionGo_flag_parts (k : Nat) :
    ∀ (elems : List Element) (s : Nat) (parts parts' : List String) (hm : Bool),
      (sectionGo k elems s parts hm).2 = (sectionGo k elems s parts' hm).2 := by
  intro elems
  induction elems with
  | nil => intro s parts parts' hm; rfl
  | cons el rest ih =>
    intro s parts parts' hm
    cases el with
    | table t =>
      simp only [sectionGo]
      apply ih
    | para p =>
      simp only [sectionGo]
      split
      · apply ih
      · split
        · apply ih
        · split
          · apply ih
          · split
            · apply ih
            · split
              · apply ih
              · split
                · apply ih
                · apply ih

/-- Once `has_math` is true it stays true. -/
theorem sectionGo_flag_true (k : Nat) :
    ∀ (elems : List Element) (s : Nat) (parts : List String),
      (sectionGo k elems s parts true).2 = true := by
  intro elems
  induction elems with
  | nil => intro s parts; rfl
  | cons el rest ih =>
    intro s parts
    cases el with
    | table t =>
      simp only [sectionGo]
      apply ih
    | para p =>
      simp only [sectionGo]
      split
      · apply ih
      · split
        · apply ih
        · split
          · apply ih
          · split
            · apply ih
            · split
              · apply ih
              · simp only [ite_self]
                split
                · apply ih
                · apply ih

/-- The paragraph of the C4 counterexample: a `Body Text` numbered
sub-heading (`4.1 Results`) containing an inline `oMath` expression. -/
def pC4 : Paragraph :=
  ⟨"Body Text",
   [Xml.mk (wtag "r") none none [Xml.mk (wtag "t") none (some "4.1 Results") []],
    Xml.mk (mtag "oMath") none none
      [Xml.mk (mtag "r") none none [Xml.mk (mtag "t") none (some "x") []]]]⟩

/-- C4 counterexample.  A section whose only paragraph is a numbered
sub-heading containing inline math renders that math into the section body
(the inline-math delimiter `\(` appears in the HTML), yet `section_to_html`
returns `has_math = false`: the sub-heading branch never updates the flag,
so the claim's "true iff any math was encountered, including in numbered
sub-headings" fails. -/
theorem section_math_flag_misses_subheading_math :
    is_section_heading pC4 = true ∧
    pyInStr "\\(".data (section_to_html [.para pC4] 0).1.data = true ∧
    (section_to_html [.para pC4] 0).2 = false :=
  ⟨rfl, rfl, rfl⟩

/-- C4 (amended).  The returned flag is true iff math was encountered in a
rendered BODY paragraph: a numbered sub-heading paragraph never affects the
flag even when it contains math (first conjunct), while a rendered body
paragraph contributes `display-math present OR inline-math marker in its
rendered content` (second conjunct). -/
theorem section_math_flag_amended :
    (∀ (p : Paragraph) (rest : List Element),
      paraHasContent p = true →
      pyStartsWith p.styleName "Heading" = false →
      is_section_heading p = true →
      (section_to_html (.para p :: rest) 0).2 = (section_to_html rest 0).2) ∧
    (∀ (p : Paragraph) (rest : List Element),
      paraHasContent p = true →
      pyStartsWith p.styleName "Heading" = false →
      is_section_heading p = false →
      (section_to_html (.para p :: rest) 0).2 =
        ((paragraphToHtml p).2 ||
          pyInStr "\\(".data (paragraphToHtml p).1.data ||
          (section_to_html rest 0).2)) := by
  have hsec : ∀ (X : List Element), (section_to_html X 0).2 =
      (sectionGo 0 X 0 [] false).2 := fun X => rfl
  constructor
  · intro p rest hc hh hsh
    rw [hsec, hsec]
    simp only [sectionGo]
    simp only [hc, Bool.not_true, Bool.false_eq_true, if_false]
    rw [if_neg (by omega : ¬ (0 : Nat) < 0), if_neg (by simp [hh]), if_pos hsh]
    apply sectionGo_flag_parts
  · intro p rest hc hh hsh
    rw [hsec, hsec]
    simp only [sectionGo]
    simp only [hc, Bool.not_true, Bool.false_eq_true, if_false]
    rw [if_neg (by omega : ¬ (0 : Nat) < 0), if_neg (by simp [hh]),
      if_neg (by simp [hsh])]
    cases hd : (paragraphToHtml p).2 with
    | true =>
      rw [if_pos rfl]
      rw [sectionGo_flag_true]
      simp
    | false =>
      rw [if_neg (by simp)]
      cases hmth : pyInStr "\\(".data (paragraphToHtml p).1.data with
      | true =>
        simp only [hmth, if_true]
        split
        · rw [sectionGo_flag_true]
          simp
        · rw [sectionGo_flag_true]
          simp
      | false =>
        simp only [hmth, Bool.false_eq_true, if_false]
        have hflag : ∀ (parts' : List String),
            (sectionGo 0 rest 0 parts' false).2 = (sectionGo 0 rest 0 [] false).2 :=
          fun parts' => sectionGo_flag_parts 0 rest 0 parts' [] false
        split
        · rw [hflag]
          simp
        · rw [hflag]
          simp

/-- C4 witness: the amended no-flag rule applied to the sub-heading
paragraph `pC4` (which does contain math) in front of an empty rest. -/
theorem section_math_flag_amended_witness :
    paraHasContent pC4 = true ∧
    pyStartsWith pC4.styleName "Heading" = false ∧
    is_section_heading pC4 = true ∧
    (section_to_html [.para pC4] 0).2 = (section_to_html [] 0).2 :=
  ⟨rfl, rfl, rfl, section_math_flag_amended.1 pC4 [] rfl rfl rfl⟩

end OceanFromMotion
